import Mathlib

/-!
# Verification of the `file_tree` ingest / canonicalize-write pipelines

A shallow embedding of `src/lib/file_tree.js` from the name-suggestion-index
repository, together with proofs about the two exported operations:

* `read` (the Ingest Pipeline): parse → validate → stamp category tag →
  resolve name → derive a hashed id → insert into the two-index cache,
  failing fast on duplicate display names (per category), unresolvable
  locations, missing names, and duplicate ids (global).
* `write` (the Canonicalize/Write Pipeline): select the category paths of one
  tree, sort each bucket by display name, normalize each entry
  (location set, lowercased match arrays, sorted tags) and produce the
  serialized per-file outputs.

External collaborators that are not part of this repository (the name
normalizer `simplify`, the location resolver `loco.validateLocationSet`, the
locale-aware comparator used for the display-name sort) are modelled as
function parameters.  The MD5 digest used for id derivation (`crypto`
module) is implemented concretely below so that id computations are fully
executable.  JavaScript error paths (`process.exit(1)`) are modelled with
`Except`: any error aborts the whole run.
-/

set_option maxRecDepth 4000

namespace NSI

/-! ## Characters, strings, UTF-8 -/

/-- ASCII lowercasing of one character (model of `String.prototype.toLowerCase`
on the character range exercised here). -/
def charLower (c : Char) : Char :=
  if 65 ≤ c.toNat ∧ c.toNat ≤ 90 then Char.ofNat (c.toNat + 32) else c

/-- Model of JavaScript `toLowerCase` on a string. -/
def toLowerStr (s : String) : String := String.mk (s.data.map charLower)

/-- Code-unit lexicographic comparison of character lists, the order used by a
default (comparator-less) JavaScript `Array.prototype.sort` on strings. -/
def charListLe : List Char → List Char → Bool
  | [], _ => true
  | _ :: _, [] => false
  | a :: as, b :: bs =>
    if a.toNat < b.toNat then true
    else if b.toNat < a.toNat then false
    else charListLe as bs

/-- `strLeB a b` is true when `a` sorts no later than `b` under the default
JavaScript string order. -/
def strLeB (a b : String) : Bool := charListLe a.data b.data

/-- Split a character list at `/` characters (model of `String.prototype.split('/')`). -/
def splitSlashAux : List Char → List Char → List (List Char)
  | [], acc => [acc.reverse]
  | c :: cs, acc =>
    if c = '/' then acc.reverse :: splitSlashAux cs [] else splitSlashAux cs (c :: acc)

/-- Model of `s.split('/')` in JavaScript. -/
def splitSlash (s : String) : List String := (splitSlashAux s.data []).map String.mk

/-- First segment of a category path: `tkv.split('/')[0]`. -/
def headSeg (s : String) : String := (splitSlash s).getD 0 ""

/-- Second and third segment of a category path `tree/key/value`:
`parts[1]` and `parts[2]` of `tkv.split('/', 3)` (an absent segment is the
string JavaScript coerces an `undefined` property key to). -/
def tkvKV (tkv : String) : String × String :=
  ((splitSlash tkv).getD 1 "undefined", (splitSlash tkv).getD 2 "undefined")

/-- UTF-8 encoding of a single code point. -/
def utf8Char (n : Nat) : List Nat :=
  if n < 128 then [n]
  else if n < 2048 then [192 + n / 64, 128 + n % 64]
  else if n < 65536 then [224 + n / 4096, 128 + (n / 64) % 64, 128 + n % 64]
  else [240 + n / 262144, 128 + (n / 4096) % 64, 128 + (n / 64) % 64, 128 + n % 64]

/-- UTF-8 bytes of a string (the byte sequence `crypto.createHash('md5').update(s)`
consumes for a JavaScript string `s`). -/
def utf8Bytes (s : String) : List Nat := s.data.flatMap (fun c => utf8Char c.toNat)

/-! ## MD5 (RFC 1321), executable on `Nat` -/

/-- Truncation to a 32-bit word. -/
def u32 (n : Nat) : Nat := n % 4294967296

/-- 32-bit left rotation (argument assumed `< 2^32`). -/
def rotl (x c : Nat) : Nat := u32 ((x <<< c) ||| (x >>> (32 - c)))

/-- The 64 MD5 sine-derived constants. -/
def md5K : List Nat :=
  [3614090360, 3905402710, 606105819, 3250441966, 4118548399, 1200080426,
   2821735955, 4249261313, 1770035416, 2336552879, 4294925233, 2304563134,
   1804603682, 4254626195, 2792965006, 1236535329, 4129170786, 3225465664,
   643717713, 3921069994, 3593408605, 38016083, 3634488961, 3889429448,
   568446438, 3275163606, 4107603335, 1163531501, 2850285829, 4243563512,
   1735328473, 2368359562, 4294588738, 2272392833, 1839030562, 4259657740,
   2763975236, 1272893353, 4139469664, 3200236656, 681279174, 3936430074,
   3572445317, 76029189, 3654602809, 3873151461, 530742520, 3299628645,
   4096336452, 1126891415, 2878612391, 4237533241, 1700485571, 2399980690,
   4293915773, 2240044497, 1873313359, 4264355552, 2734768916, 1309151649,
   4149444226, 3174756917, 718787259, 3951481745]

/-- The 64 MD5 per-round shift amounts. -/
def md5S : List Nat :=
  [7, 12, 17, 22, 7, 12, 17, 22, 7, 12, 17, 22, 7, 12, 17, 22,
   5, 9, 14, 20, 5, 9, 14, 20, 5, 9, 14, 20, 5, 9, 14, 20,
   4, 11, 16, 23, 4, 11, 16, 23, 4, 11, 16, 23, 4, 11, 16, 23,
   6, 10, 15, 21, 6, 10, 15, 21, 6, 10, 15, 21, 6, 10, 15, 21]

/-- The MD5 nonlinear round function, selected by the step index. -/
def md5F (i b c d : Nat) : Nat :=
  if i < 16 then (b &&& c) ||| ((b ^^^ 4294967295) &&& d)
  else if i < 32 then (d &&& b) ||| ((d ^^^ 4294967295) &&& c)
  else if i < 48 then b ^^^ c ^^^ d
  else c ^^^ (b ||| (d ^^^ 4294967295))

/-- The MD5 message-word index for step `i`. -/
def md5G (i : Nat) : Nat :=
  if i < 16 then i
  else if i < 32 then (5 * i + 1) % 16
  else if i < 48 then (3 * i + 5) % 16
  else (7 * i) % 16

/-- Little-endian 8-byte encoding of a (already reduced) 64-bit number. -/
def le8 (n : Nat) : List Nat := (List.range 8).map (fun i => (n >>> (8 * i)) % 256)

/-- Little-endian 4-byte encoding of a 32-bit word. -/
def le4 (n : Nat) : List Nat := [n % 256, (n >>> 8) % 256, (n >>> 16) % 256, (n >>> 24) % 256]

/-- MD5 padding: a `0x80` byte, zeros to 56 mod 64, then the bit length. -/
def md5Pad (msg : List Nat) : List Nat :=
  msg ++ [128] ++ List.replicate ((119 - msg.length % 64) % 64) 0 ++
    le8 ((msg.length * 8) % 18446744073709551616)

/-- Split a padded message into `n` chunks of 64 bytes. -/
def chunksGo : Nat → List Nat → List (List Nat)
  | 0, _ => []
  | n + 1, l => l.take 64 :: chunksGo n (l.drop 64)

/-- The `j`-th little-endian 32-bit word of a 64-byte chunk. -/
def word32At (chunk : List Nat) (j : Nat) : Nat :=
  chunk.getD (4 * j) 0 + 256 * chunk.getD (4 * j + 1) 0 +
    65536 * chunk.getD (4 * j + 2) 0 + 16777216 * chunk.getD (4 * j + 3) 0

/-- One MD5 step on the running state `(A, B, C, D)`. -/
def md5Step (M : Nat → Nat) (st : Nat × Nat × Nat × Nat) (i : Nat) : Nat × Nat × Nat × Nat :=
  match st with
  | (a, b, c, d) =>
    let tmp := u32 (md5F i b c d + a + md5K.getD i 0 + M (md5G i))
    (d, u32 (b + rotl tmp (md5S.getD i 0)), b, c)

/-- Process one 64-byte chunk. -/
def md5Chunk (st : Nat × Nat × Nat × Nat) (chunk : List Nat) : Nat × Nat × Nat × Nat :=
  match st, (List.range 64).foldl (md5Step (word32At chunk)) st with
  | (a0, b0, c0, d0), (a, b, c, d) => (u32 (a0 + a), u32 (b0 + b), u32 (c0 + c), u32 (d0 + d))

/-- MD5 digest (16 bytes) of a byte sequence. -/
def md5BytesOf (msg : List Nat) : List Nat :=
  let padded := md5Pad msg
  match (chunksGo (padded.length / 64) padded).foldl md5Chunk
      (1732584193, 4023233417, 2562383102, 271733878) with
  | (a, b, c, d) => le4 a ++ le4 b ++ le4 c ++ le4 d

/-- Lowercase hexadecimal digit. -/
def hexDigit (n : Nat) : Char := "0123456789abcdef".data.getD n '0'

/-- Two hexadecimal digits of one byte. -/
def byteHex (b : Nat) : List Char := [hexDigit (b / 16), hexDigit (b % 16)]

/-- `crypto.createHash('md5').update(s).digest('hex')`. -/
def md5Hex (s : String) : String := String.mk ((md5BytesOf (utf8Bytes s)).flatMap byteHex)

/-- `.digest('hex').slice(0, 6)`: the 6-hex-character truncation used for ids. -/
def hash6 (msg : String) : String := String.mk ((md5Hex msg).data.take 6)

/-! ## Data model

An `Item` is one dataset record as it appears in an entry file (and, after
ingest, in the cache).  JavaScript objects with the fixed schema of
`file_tree.js` are modelled as structures; the dynamic string-keyed maps
(`tags`, and any extra `locationSet` fields) as association lists with
JavaScript object semantics (first binding wins on lookup, assignment
replaces in place or appends). -/

/-- The `locationSet` object of an entry.  `extra` models any fields other
than `include`/`exclude` (the write pipeline drops them). -/
structure LocationSet where
  «include» : Option (List String)
  «exclude» : Option (List String)
  extra : List (String × String)
deriving DecidableEq, Repr

/-- One entry. `id` is absent in source files and assigned by `read`. -/
structure Item where
  displayName : String
  tags : List (String × String)
  locationSet : LocationSet
  matchNames : Option (List String)
  matchTags : Option (List String)
  id : Option String
deriving DecidableEq, Repr

/-- The two-index Identity Cache: `path` is `cache.path` (category path →
bucket of entries, in insertion order), `id` is `cache.id` (generated id →
entry). -/
structure Cache where
  path : List (String × List Item)
  id : List (String × Item)
deriving DecidableEq, Repr

/-- The `{ path: {}, id: {} }` default cache. -/
def emptyCache : Cache := { path := [], id := [] }

instance exceptDecEq {ε α : Type} [DecidableEq ε] [DecidableEq α] :
    DecidableEq (Except ε α) := fun x y =>
  match x, y with
  | .error e, .error f =>
    if h : e = f then .isTrue (by rw [h]) else .isFalse (fun hh => h (by cases hh; rfl))
  | .error _, .ok _ => .isFalse (fun hh => by cases hh)
  | .ok _, .error _ => .isFalse (fun hh => by cases hh)
  | .ok a, .ok b =>
    if h : a = b then .isTrue (by rw [h]) else .isFalse (fun hh => h (by cases hh; rfl))

/-- JavaScript object property lookup on an association list. -/
def alookup {α : Type} : List (String × α) → String → Option α
  | [], _ => none
  | (k, v) :: rest, key => if k = key then some v else alookup rest key

/-- JavaScript object property assignment: replace the binding in place when
the key exists, append otherwise. -/
def updateAssoc {α : Type} : List (String × α) → String → α → List (String × α)
  | [], key, val => [(key, val)]
  | (k, v) :: rest, key, val =>
    if k = key then (key, val) :: rest else (k, v) :: updateAssoc rest key val

/-! ## The Ingest Pipeline (`exports.read`) -/

/-- The tree-specific fallback name tag:
`{ brands: 'brand', operators: 'operator', networks: 'network' }[tree]`. -/
def fallbackName (tree : String) : Option String :=
  if tree = "brands" then some "brand"
  else if tree = "operators" then some "operator"
  else if tree = "networks" then some "network"
  else none

/-- The property key actually read for the fallback lookup: an undefined
`fallbackName` is coerced by JavaScript to the property key `"undefined"`. -/
def fbKey (fb : Option String) : String := fb.getD "undefined"

/-- Property lookup under JavaScript truthiness: an empty string is falsy,
so `tags.name || …` falls through both on an absent and on an empty value. -/
def lookupTruthy (tags : List (String × String)) (key : String) : Option String :=
  match alookup tags key with
  | some s => if s = "" then none else some s
  | none => none

/-- `item.tags.name || item.tags[fallbackName]`. -/
def nameOf (tags : List (String × String)) (fb : Option String) : Option String :=
  match lookupTruthy tags "name" with
  | some n => some n
  | none => lookupTruthy tags (fbKey fb)

/-- The fatal conditions of the ingest pipeline (`process.exit(1)` sites),
each carrying what the error report prints. -/
inductive ReadError where
  | duplicateName (displayName : String)
  | locationError (displayName : String)
  | missingName (displayName : String)
  | duplicateId (generatedId : String)
deriving DecidableEq, Repr

/-- The id `read` derives for `item` under category path `tkv`, when every
check passes: `simplify(name) + "-" + hash6(md5(tkv + " " + locationID))`.
`none` when the location does not resolve or no name is available. -/
def derivedId (fb : Option String) (simplify : String → String)
    (loco : LocationSet → Option String) (tkv : String) (item : Item) : Option String :=
  match loco item.locationSet with
  | none => none
  | some locationID =>
    match nameOf (updateAssoc item.tags (tkvKV tkv).1 (tkvKV tkv).2) fb with
    | none => none
    | some name => some (simplify name ++ "-" ++ hash6 (tkv ++ " " ++ locationID))

/-- The entry as it is inserted into the cache: category tag stamped,
generated id attached. -/
def stampItem (fb : Option String) (simplify : String → String)
    (loco : LocationSet → Option String) (tkv : String) (item : Item) : Item :=
  { item with
    tags := updateAssoc item.tags (tkvKV tkv).1 (tkvKV tkv).2,
    id := derivedId fb simplify loco tkv item }

/-- Processing of one entry inside the `input[tkv].forEach(item => …)` body:
duplicate-display-name check, location resolution, tag stamping, name
resolution, id derivation, duplicate-id check, insertion into both indices.
The state is the transient `seenName` set paired with the cache. -/
def readItem (fb : Option String) (simplify : String → String)
    (loco : LocationSet → Option String) (tkv k v : String)
    (st : List String × Cache) (item : Item) : Except ReadError (List String × Cache) :=
  let seen := st.1
  let cache := st.2
  if item.displayName ∈ seen then
    .error (.duplicateName item.displayName)
  else
    match loco item.locationSet with
    | none => .error (.locationError item.displayName)
    | some locationID =>
      let tags := updateAssoc item.tags k v
      match nameOf tags fb with
      | none => .error (.missingName item.displayName)
      | some name =>
        let generated := simplify name ++ "-" ++ hash6 (tkv ++ " " ++ locationID)
        let item' := { item with tags := tags, id := some generated }
        match alookup cache.id generated with
        | some _ => .error (.duplicateId generated)
        | none =>
          .ok (item.displayName :: seen,
            { path := updateAssoc cache.path tkv ((alookup cache.path tkv).getD [] ++ [item']),
              id := cache.id ++ [(generated, item')] })

/-- Processing of one category-path key of a parsed file
(`Object.keys(input).forEach(tkv => …)` body): split the path, reset the
`seenName` set and the `byPath` bucket, then fold over the entries. -/
def readTkv (fb : Option String) (simplify : String → String)
    (loco : LocationSet → Option String) (cache : Cache)
    (entry : String × List Item) : Except ReadError Cache :=
  let tkv := entry.1
  let kv := tkvKV tkv
  let cache' := { cache with path := updateAssoc cache.path tkv [] }
  (entry.2.foldlM (readItem fb simplify loco tkv kv.1 kv.2) ([], cache')).map (·.2)

/-- Processing of one parsed file: fold over its category-path keys.
(Structural schema validation is an external collaborator and does not
transform the data.) -/
def readFile (fb : Option String) (simplify : String → String)
    (loco : LocationSet → Option String) (cache : Cache)
    (doc : List (String × List Item)) : Except ReadError Cache :=
  doc.foldlM (readTkv fb simplify loco) cache

/-- `exports.read`: fold the parsed files discovered for `tree` into the
(possibly seeded) cache.  File discovery and JSON5 parsing are external;
the files are passed already parsed, in glob order. -/
def readTree (tree : String) (simplify : String → String)
    (loco : LocationSet → Option String)
    (files : List (List (String × List Item))) (cache : Cache) : Except ReadError Cache :=
  files.foldlM (readFile (fallbackName tree) simplify loco) cache

/-! ### Error-free run, described directly

Total counterparts of the ingest folds: what a run computes when no fatal
condition fires.  `readTree_ok` below proves that under the success
conditions the pipeline returns exactly `goodTree`. -/

/-- Insertion of one entry on the error-free path. -/
def insertGood (fb : Option String) (simplify : String → String)
    (loco : LocationSet → Option String) (tkv : String) (cache : Cache) (item : Item) : Cache :=
  let item' := stampItem fb simplify loco tkv item
  let generated := (derivedId fb simplify loco tkv item).getD ""
  { path := updateAssoc cache.path tkv ((alookup cache.path tkv).getD [] ++ [item']),
    id := cache.id ++ [(generated, item')] }

/-- Error-free processing of one category-path key. -/
def goodTkv (fb : Option String) (simplify : String → String)
    (loco : LocationSet → Option String) (cache : Cache) (entry : String × List Item) : Cache :=
  entry.2.foldl (insertGood fb simplify loco entry.1)
    { cache with path := updateAssoc cache.path entry.1 [] }

/-- Error-free processing of one file. -/
def goodFile (fb : Option String) (simplify : String → String)
    (loco : LocationSet → Option String) (cache : Cache)
    (doc : List (String × List Item)) : Cache :=
  doc.foldl (goodTkv fb simplify loco) cache

/-- Error-free processing of a whole corpus. -/
def goodTree (fb : Option String) (simplify : String → String)
    (loco : LocationSet → Option String)
    (files : List (List (String × List Item))) (cache : Cache) : Cache :=
  files.foldl (goodFile fb simplify loco) cache

/-- The `(generated id, stamped entry)` pairs one category-path key appends
to `cache.id`, in processing order. -/
def tkvPairs (fb : Option String) (simplify : String → String)
    (loco : LocationSet → Option String) (e : String × List Item) : List (String × Item) :=
  e.2.map (fun i =>
    ((derivedId fb simplify loco e.1 i).getD "", stampItem fb simplify loco e.1 i))

/-- The `(generated id, stamped entry)` pairs one file appends to `cache.id`. -/
def docPairs (fb : Option String) (simplify : String → String)
    (loco : LocationSet → Option String) (doc : List (String × List Item)) : List (String × Item) :=
  doc.flatMap (tkvPairs fb simplify loco)

/-- The `(generated id, stamped entry)` pairs a whole error-free run appends
to `cache.id`, in processing order. -/
def runPairs (fb : Option String) (simplify : String → String)
    (loco : LocationSet → Option String)
    (files : List (List (String × List Item))) : List (String × Item) :=
  files.flatMap (docPairs fb simplify loco)

/-- The generated ids of one category-path key, in processing order. -/
def tkvIds (fb : Option String) (simplify : String → String)
    (loco : LocationSet → Option String) (e : String × List Item) : List String :=
  (tkvPairs fb simplify loco e).map Prod.fst

/-- The generated ids of one file, in processing order. -/
def docIds (fb : Option String) (simplify : String → String)
    (loco : LocationSet → Option String) (doc : List (String × List Item)) : List String :=
  (docPairs fb simplify loco doc).map Prod.fst

/-- The generated ids of a whole corpus, in processing order. -/
def filesIds (fb : Option String) (simplify : String → String)
    (loco : LocationSet → Option String) (files : List (List (String × List Item))) : List String :=
  (runPairs fb simplify loco files).map Prod.fst

/-- Success conditions for a whole run: within each category-path key of each
file the display names are distinct and every entry's location and name
resolve; and all generated ids (seed cache included) are distinct. -/
def corpusOK (fb : Option String) (simplify : String → String)
    (loco : LocationSet → Option String)
    (files : List (List (String × List Item))) (cache : Cache) : Prop :=
  (∀ doc ∈ files, ∀ e ∈ doc,
    (e.2.map (·.displayName)).Nodup ∧
    ∀ i ∈ e.2, (derivedId fb simplify loco e.1 i).isSome) ∧
  (cache.id.map Prod.fst ++ filesIds fb simplify loco files).Nodup

instance corpusOKDecidable (fb : Option String) (simplify : String → String)
    (loco : LocationSet → Option String)
    (files : List (List (String × List Item))) (cache : Cache) :
    Decidable (corpusOK fb simplify loco files cache) := by
  unfold corpusOK
  infer_instance

/-! ## The Canonicalize/Write Pipeline (`exports.write`) -/

/-- The fatal condition of the write pipeline (file-system errors of the
serialization step are external). -/
inductive WriteError where
  | noData (tree : String)
deriving DecidableEq, Repr

/-- Stable insertion into a sorted list (JavaScript `Array.prototype.sort`
is stable; with a consistent comparator its result is the unique stable
order, which insertion sort computes). -/
def insertLeB {α : Type} (le : α → α → Bool) (x : α) : List α → List α
  | [] => [x]
  | y :: ys => if le x y then x :: y :: ys else y :: insertLeB le x ys

/-- Stable sort by a boolean comparison. -/
def isortBy {α : Type} (le : α → α → Bool) : List α → List α
  | [] => []
  | x :: xs => insertLeB le x (isortBy le xs)

/-- Key order on map bindings. -/
def tagLeB (a b : String × String) : Bool := strLeB a.1 b.1

/-- Modelled from the spec: `sort.js` (the Canonical Sorter collaborator) is
not under `src/`; per the spec it returns a deterministic deep copy with
keys in canonical order and does not reorder arrays.  On an association-list
map this is a stable sort by key. -/
def sortAssoc (tags : List (String × String)) : List (String × String) :=
  isortBy tagLeB tags

/-- Modelled from the spec: the Canonical Sorter applied to a whole entry.
On the fixed-schema `Item` structure the only dynamic maps whose key order
it can affect are `tags` and the extra `locationSet` fields; arrays are not
reordered. -/
def sortItem (item : Item) : Item :=
  { item with
    tags := sortAssoc item.tags,
    locationSet := { item.locationSet with extra := sortAssoc item.locationSet.extra } }

/-- The `// clean locationSet` block: `include` (or the `['001']` world
default) and `exclude` are sorted and then lowercased; nothing else of the
input `locationSet` is kept. -/
def cleanLocationSet (ls : LocationSet) : LocationSet :=
  { «include» := some (match ls.include with
      | some xs => (isortBy strLeB xs).map toLowerStr
      | none => ["001"]),
    «exclude» := match ls.exclude with
      | some xs => some ((isortBy strLeB xs).map toLowerStr)
      | none => none,
    extra := [] }

/-- The in-place mutations the write pipeline applies to a cached entry:
cleaned `locationSet`, lowercased `matchNames`/`matchTags`, sorted `tags`. -/
def normalizeEntry (item : Item) : Item :=
  { item with
    locationSet := cleanLocationSet item.locationSet,
    matchNames := item.matchNames.map (List.map toLowerStr),
    matchTags := item.matchTags.map (List.map toLowerStr),
    tags := sortAssoc item.tags }

/-- The entry as serialized: the Canonical Sorter's fresh deep-sorted copy of
the mutated entry (`return sort(item)`). -/
def cleanItem (item : Item) : Item := sortItem (normalizeEntry item)

/-- Processing of one selected category path: read the bucket, skip it when
empty, otherwise sort it by display name (comparator `cmp`, modelling
`localeCompare`), mutate every entry in place, and emit the serialized
output for this path's file. -/
def writeStep (cmp : String → String → Bool) (acc : Cache × List (String × List Item))
    (tkv : String) : Cache × List (String × List Item) :=
  let items := (alookup acc.1.path tkv).getD []
  if items.isEmpty then acc
  else
    let sorted := isortBy (fun a b => cmp a.displayName b.displayName) items
    ({ acc.1 with path := updateAssoc acc.1.path tkv (sorted.map normalizeEntry) },
     acc.2 ++ [(tkv, sorted.map cleanItem)])

/-- `exports.write`: select the category paths of `tree`, fail when there are
none, then process each.  The result is the mutated cache together with the
per-file serialized contents (file-system output is external). -/
def writeTree (cmp : String → String → Bool) (tree : String) (cache : Cache) :
    Except WriteError (Cache × List (String × List Item)) :=
  let paths := (cache.path.map Prod.fst).filter (fun tkv => headSeg tkv = tree)
  if paths.isEmpty then .error (.noData tree)
  else .ok (paths.foldl (writeStep cmp) (cache, []))

/-! ### Canonical form -/

/-- Adjacent-pairs sortedness under a boolean comparison. -/
def chainB {α : Type} (le : α → α → Bool) : List α → Bool
  | [] => true
  | [_] => true
  | a :: b :: r => le a b && chainB le (b :: r)

/-- An already-canonical `locationSet`: `include` present, both token lists
sorted and lowercased, no other fields. -/
def canonicalLS (ls : LocationSet) : Bool :=
  (match ls.include with
   | some xs => chainB strLeB xs && (xs.map toLowerStr == xs)
   | none => false) &&
  (match ls.exclude with
   | some ys => chainB strLeB ys && (ys.map toLowerStr == ys)
   | none => true) &&
  (ls.extra == [])

/-- An already-canonical entry: canonical `locationSet`, lowercased
`matchNames`/`matchTags`, tags sorted by key. -/
def canonicalItem (item : Item) : Bool :=
  canonicalLS item.locationSet &&
  (match item.matchNames with | some ns => ns.map toLowerStr == ns | none => true) &&
  (match item.matchTags with | some ns => ns.map toLowerStr == ns | none => true) &&
  chainB tagLeB item.tags

/-! ### Concrete test inputs

Helper constructors and a concrete location resolver used to instantiate the
theorems below on explicit inputs. -/

/-- A concrete stand-in for the external Location Resolver: the resolved
location identifier is the first `include` token. -/
def locoHead : LocationSet → Option String := fun ls => ls.include.bind List.head?

/-- Build an entry of the shape found in source files. -/
def mkItem (dn : String) (tags : List (String × String)) (inc : List String) : Item :=
  { displayName := dn
    tags := tags
    locationSet := { «include» := some inc, «exclude» := none, extra := [] }
    matchNames := none
    matchTags := none
    id := none }

/-! ## Lemmas: association lists -/

theorem alookup_updateAssoc_self {α : Type} (l : List (String × α)) (k : String) (v : α) :
    alookup (updateAssoc l k v) k = some v := by
  induction l with
  | nil => simp [updateAssoc, alookup]
  | cons p rest ih =>
    obtain ⟨pk, pv⟩ := p
    by_cases h : pk = k
    · simp [updateAssoc, h, alookup]
    · simp [updateAssoc, h, alookup, ih]

theorem alookup_updateAssoc_ne {α : Type} (l : List (String × α)) (k k' : String) (v : α)
    (h : k' ≠ k) : alookup (updateAssoc l k v) k' = alookup l k' := by
  induction l with
  | nil => simp [updateAssoc, alookup, Ne.symm h]
  | cons p rest ih =>
    obtain ⟨pk, pv⟩ := p
    by_cases hp : pk = k
    · subst hp
      simp [updateAssoc, alookup, Ne.symm h]
    · by_cases hk : pk = k'
      · simp [updateAssoc, hp, alookup, hk, h]
      · simp [updateAssoc, hp, alookup, hk, ih]

theorem mem_updateAssoc {α : Type} {l : List (String × α)} {k : String} {v : α}
    {p : String × α} (h : p ∈ updateAssoc l k v) : p ∈ l ∨ p = (k, v) := by
  induction l with
  | nil => simpa [updateAssoc] using h
  | cons q rest ih =>
    obtain ⟨qk, qv⟩ := q
    simp only [updateAssoc] at h
    by_cases hq : qk = k
    · rw [if_pos hq] at h
      rcases List.mem_cons.mp h with h | h
      · exact Or.inr h
      · exact Or.inl (List.mem_cons_of_mem _ h)
    · rw [if_neg hq] at h
      rcases List.mem_cons.mp h with h | h
      · exact Or.inl (by simp [h])
      · rcases ih h with h' | h'
        · exact Or.inl (List.mem_cons_of_mem _ h')
        · exact Or.inr h'

theorem alookup_eq_none {α : Type} {l : List (String × α)} {k : String}
    (h : k ∉ l.map Prod.fst) : alookup l k = none := by
  induction l with
  | nil => rfl
  | cons p rest ih =>
    obtain ⟨pk, pv⟩ := p
    simp only [List.map_cons, List.mem_cons] at h
    push_neg at h
    simp only [alookup]
    rw [if_neg (Ne.symm h.1)]
    exact ih h.2

theorem alookup_mem {α : Type} {l : List (String × α)} {k : String} {v : α}
    (h : alookup l k = some v) : (k, v) ∈ l := by
  induction l with
  | nil => simp [alookup] at h
  | cons p rest ih =>
    obtain ⟨pk, pv⟩ := p
    simp only [alookup] at h
    by_cases hp : pk = k
    · subst hp
      rw [if_pos rfl] at h
      cases Option.some.inj h
      exact List.mem_cons_self _ _
    · rw [if_neg hp] at h
      exact List.mem_cons_of_mem _ (ih h)

/-! ## Lemmas: processing of one entry -/

theorem derivedId_eq_some (fb : Option String) (simplify : String → String)
    (loco : LocationSet → Option String) (tkv k v : String) (item : Item)
    (locID name : String) (hkv : tkvKV tkv = (k, v))
    (hloc : loco item.locationSet = some locID)
    (hname : nameOf (updateAssoc item.tags k v) fb = some name) :
    derivedId fb simplify loco tkv item =
      some (simplify name ++ "-" ++ hash6 (tkv ++ " " ++ locID)) := by
  simp [derivedId, hkv, hloc, hname]

theorem stampItem_eq (fb : Option String) (simplify : String → String)
    (loco : LocationSet → Option String) (tkv k v : String) (item : Item)
    (locID name : String) (hkv : tkvKV tkv = (k, v))
    (hloc : loco item.locationSet = some locID)
    (hname : nameOf (updateAssoc item.tags k v) fb = some name) :
    stampItem fb simplify loco tkv item =
      { item with tags := updateAssoc item.tags k v,
                  id := some (simplify name ++ "-" ++ hash6 (tkv ++ " " ++ locID)) } := by
  simp [stampItem, hkv, derivedId_eq_some fb simplify loco tkv k v item locID name hkv hloc hname]

theorem readItem_ok_eq (fb : Option String) (simplify : String → String)
    (loco : LocationSet → Option String) (tkv k v : String)
    (seen : List String) (cache : Cache) (item : Item) (locID name : String)
    (hdn : item.displayName ∉ seen)
    (hloc : loco item.locationSet = some locID)
    (hname : nameOf (updateAssoc item.tags k v) fb = some name)
    (hfresh : alookup cache.id (simplify name ++ "-" ++ hash6 (tkv ++ " " ++ locID)) = none) :
    readItem fb simplify loco tkv k v (seen, cache) item =
      .ok (item.displayName :: seen,
        { path := updateAssoc cache.path tkv ((alookup cache.path tkv).getD [] ++
            [{ item with tags := updateAssoc item.tags k v,
                         id := some (simplify name ++ "-" ++ hash6 (tkv ++ " " ++ locID)) }]),
          id := cache.id ++ [(simplify name ++ "-" ++ hash6 (tkv ++ " " ++ locID),
            { item with tags := updateAssoc item.tags k v,
                        id := some (simplify name ++ "-" ++ hash6 (tkv ++ " " ++ locID)) })] }) := by
  simp [readItem, hdn, hloc, hname, hfresh]

theorem readItem_eq_insertGood (fb : Option String) (simplify : String → String)
    (loco : LocationSet → Option String) (tkv k v : String)
    (seen : List String) (cache : Cache) (item : Item) (locID name : String)
    (hkv : tkvKV tkv = (k, v))
    (hdn : item.displayName ∉ seen)
    (hloc : loco item.locationSet = some locID)
    (hname : nameOf (updateAssoc item.tags k v) fb = some name)
    (hfresh : alookup cache.id (simplify name ++ "-" ++ hash6 (tkv ++ " " ++ locID)) = none) :
    readItem fb simplify loco tkv k v (seen, cache) item =
      .ok (item.displayName :: seen, insertGood fb simplify loco tkv cache item) := by
  rw [readItem_ok_eq fb simplify loco tkv k v seen cache item locID name hdn hloc hname hfresh]
  simp [insertGood,
    stampItem_eq fb simplify loco tkv k v item locID name hkv hloc hname,
    derivedId_eq_some fb simplify loco tkv k v item locID name hkv hloc hname]

theorem readItem_err_dupName (fb : Option String) (simplify : String → String)
    (loco : LocationSet → Option String) (tkv k v : String)
    (seen : List String) (cache : Cache) (item : Item)
    (hdn : item.displayName ∈ seen) :
    readItem fb simplify loco tkv k v (seen, cache) item =
      .error (.duplicateName item.displayName) := by
  simp [readItem, hdn]

theorem readItem_err_missingName (fb : Option String) (simplify : String → String)
    (loco : LocationSet → Option String) (tkv k v : String)
    (seen : List String) (cache : Cache) (item : Item) (locID : String)
    (hdn : item.displayName ∉ seen)
    (hloc : loco item.locationSet = some locID)
    (hname : nameOf (updateAssoc item.tags k v) fb = none) :
    readItem fb simplify loco tkv k v (seen, cache) item =
      .error (.missingName item.displayName) := by
  simp [readItem, hdn, hloc, hname]

theorem readItem_err_dupId (fb : Option String) (simplify : String → String)
    (loco : LocationSet → Option String) (tkv k v : String)
    (seen : List String) (cache : Cache) (item : Item) (locID name : String)
    (existing : Item)
    (hdn : item.displayName ∉ seen)
    (hloc : loco item.locationSet = some locID)
    (hname : nameOf (updateAssoc item.tags k v) fb = some name)
    (hdup : alookup cache.id (simplify name ++ "-" ++ hash6 (tkv ++ " " ++ locID)) = some existing) :
    readItem fb simplify loco tkv k v (seen, cache) item =
      .error (.duplicateId (simplify name ++ "-" ++ hash6 (tkv ++ " " ++ locID))) := by
  simp [readItem, hdn, hloc, hname, hdup]

/-- Full inverse characterization of a successful `readItem` call. -/
theorem readItem_ok_inv {fb : Option String} {simplify : String → String}
    {loco : LocationSet → Option String} {tkv k v : String}
    {seen seen' : List String} {cache cache' : Cache} {item : Item}
    (h : readItem fb simplify loco tkv k v (seen, cache) item = .ok (seen', cache')) :
    ∃ gen, alookup cache.id gen = none ∧
      seen' = item.displayName :: seen ∧
      cache' = { path := updateAssoc cache.path tkv ((alookup cache.path tkv).getD [] ++
                   [{ item with tags := updateAssoc item.tags k v, id := some gen }]),
                 id := cache.id ++
                   [(gen, { item with tags := updateAssoc item.tags k v, id := some gen })] } := by
  simp only [readItem] at h
  split at h
  · exact absurd h (by simp)
  · split at h
    · exact absurd h (by simp)
    · split at h
      · exact absurd h (by simp)
      · split at h
        · exact absurd h (by simp)
        · have h' := Except.ok.inj h
          refine ⟨_, by assumption, ?_, ?_⟩
          · exact (congrArg Prod.fst h').symm
          · exact (congrArg Prod.snd h').symm

/-! ## Lemmas: folds of the ingest pipeline -/

/-- An invariant preserved by each step of an `Except` fold is preserved by
the whole fold whenever it succeeds. -/
theorem foldlM_ok_inv {σ β : Type} {f : σ → β → Except ReadError σ} {P : σ → Prop}
    (hf : ∀ s b s', P s → f s b = .ok s' → P s') :
    ∀ (l : List β) (s s' : σ), P s → l.foldlM f s = .ok s' → P s'
  | [], s, s', hP, h => by
    simp only [List.foldlM_nil] at h
    cases Except.ok.inj h
    exact hP
  | b :: l, s, s', hP, h => by
    simp only [List.foldlM_cons] at h
    cases hfb : f s b with
    | error e => rw [hfb] at h; exact absurd h (by simp [Bind.bind, Except.bind])
    | ok s₁ =>
      rw [hfb] at h
      simp only [Bind.bind, Except.bind] at h
      exact foldlM_ok_inv hf l s₁ s' (hf s b s₁ hP hfb) h

theorem insertGood_id (fb : Option String) (simplify : String → String)
    (loco : LocationSet → Option String) (tkv : String) (cache : Cache) (i : Item) :
    (insertGood fb simplify loco tkv cache i).id =
      cache.id ++ [((derivedId fb simplify loco tkv i).getD "",
        stampItem fb simplify loco tkv i)] := rfl

theorem foldl_insertGood_id (fb : Option String) (simplify : String → String)
    (loco : LocationSet → Option String) (tkv : String) :
    ∀ (items : List Item) (cache : Cache),
      (items.foldl (insertGood fb simplify loco tkv) cache).id =
        cache.id ++ items.map (fun i => ((derivedId fb simplify loco tkv i).getD "",
          stampItem fb simplify loco tkv i))
  | [], cache => by simp
  | i :: rest, cache => by
    rw [List.foldl_cons, foldl_insertGood_id fb simplify loco tkv rest, insertGood_id]
    simp

/-- The items fold of one category-path key returns exactly the error-free
fold when display names are fresh and distinct, every id derives, and no
derived id collides. -/
theorem foldlM_readItem_ok (fb : Option String) (simplify : String → String)
    (loco : LocationSet → Option String) (tkv k v : String) (hkv : tkvKV tkv = (k, v)) :
    ∀ (items : List Item) (seen : List String) (cache : Cache),
      (items.map (·.displayName)).Nodup →
      (∀ i ∈ items, i.displayName ∉ seen) →
      (∀ i ∈ items, (derivedId fb simplify loco tkv i).isSome) →
      ((cache.id.map Prod.fst) ++
        items.map (fun i => (derivedId fb simplify loco tkv i).getD "")).Nodup →
      ∃ seen', items.foldlM (readItem fb simplify loco tkv k v) (seen, cache) =
        .ok (seen', items.foldl (insertGood fb simplify loco tkv) cache)
  | [], seen, cache, _, _, _, _ => ⟨seen, rfl⟩
  | i :: rest, seen, cache, h1, h2, h3, h4 => by
    have hiSome : (derivedId fb simplify loco tkv i).isSome := h3 i (List.mem_cons_self _ _)
    rw [derivedId] at hiSome
    cases hloc : loco i.locationSet with
    | none => rw [hloc] at hiSome; simp at hiSome
    | some locID =>
      rw [hloc] at hiSome
      cases hname : nameOf (updateAssoc i.tags (tkvKV tkv).1 (tkvKV tkv).2) fb with
      | none => rw [hname] at hiSome; simp at hiSome
      | some name =>
        have hname' : nameOf (updateAssoc i.tags k v) fb = some name := by
          rw [hkv] at hname; exact hname
        have hgen : derivedId fb simplify loco tkv i =
            some (simplify name ++ "-" ++ hash6 (tkv ++ " " ++ locID)) :=
          derivedId_eq_some fb simplify loco tkv k v i locID name hkv hloc hname'
        have hfreshKey : (simplify name ++ "-" ++ hash6 (tkv ++ " " ++ locID)) ∉
            cache.id.map Prod.fst := by
          intro hmem
          have hdisj := (List.nodup_append.mp h4).2.2
          have : (simplify name ++ "-" ++ hash6 (tkv ++ " " ++ locID)) ∈
              (i :: rest).map (fun i => (derivedId fb simplify loco tkv i).getD "") := by
            simp [hgen]
          exact hdisj hmem this
        have hfresh := alookup_eq_none hfreshKey
        have hstep := readItem_eq_insertGood fb simplify loco tkv k v seen cache i locID name
          hkv (h2 i (List.mem_cons_self _ _)) hloc hname' hfresh
        have h1' : (i.displayName :: rest.map (·.displayName)).Nodup := by simpa using h1
        have hrest := foldlM_readItem_ok fb simplify loco tkv k v hkv rest
          (i.displayName :: seen) (insertGood fb simplify loco tkv cache i)
          ((List.nodup_cons.mp h1').2)
          (by
            intro j hj hc
            rcases List.mem_cons.mp hc with hc | hc
            · exact (List.nodup_cons.mp h1').1
                (hc ▸ List.mem_map_of_mem (·.displayName) hj)
            · exact h2 j (List.mem_cons_of_mem _ hj) hc)
          (fun j hj => h3 j (List.mem_cons_of_mem _ hj))
          (by
            rw [insertGood_id]
            simp only [List.map_append, List.map_cons, List.map_nil]
            rw [List.append_assoc]
            simpa [hgen] using h4)
        obtain ⟨seen', hrest'⟩ := hrest
        refine ⟨seen', ?_⟩
        rw [List.foldlM_cons, hstep]
        simp only [Bind.bind, Except.bind]
        rw [hrest']
        simp

theorem goodTkv_id (fb : Option String) (simplify : String → String)
    (loco : LocationSet → Option String) (cache : Cache) (e : String × List Item) :
    (goodTkv fb simplify loco cache e).id = cache.id ++ tkvPairs fb simplify loco e := by
  unfold goodTkv tkvPairs
  rw [foldl_insertGood_id]

theorem goodFile_id (fb : Option String) (simplify : String → String)
    (loco : LocationSet → Option String) :
    ∀ (doc : List (String × List Item)) (cache : Cache),
      (goodFile fb simplify loco cache doc).id = cache.id ++ docPairs fb simplify loco doc
  | [], cache => by simp [goodFile, docPairs]
  | e :: rest, cache => by
    show (goodFile fb simplify loco (goodTkv fb simplify loco cache e) rest).id = _
    rw [goodFile_id fb simplify loco rest, goodTkv_id]
    simp [docPairs]

theorem goodTree_id (fb : Option String) (simplify : String → String)
    (loco : LocationSet → Option String) :
    ∀ (files : List (List (String × List Item))) (cache : Cache),
      (goodTree fb simplify loco files cache).id = cache.id ++ runPairs fb simplify loco files
  | [], cache => by simp [goodTree, runPairs]
  | doc :: rest, cache => by
    show (goodTree fb simplify loco rest (goodFile fb simplify loco cache doc)).id = _
    rw [goodTree_id fb simplify loco rest, goodFile_id]
    simp [runPairs]

/-- Success of the processing of one category-path key. -/
theorem readTkv_ok (fb : Option String) (simplify : String → String)
    (loco : LocationSet → Option String) (cache : Cache) (e : String × List Item)
    (h1 : (e.2.map (·.displayName)).Nodup)
    (h2 : ∀ i ∈ e.2, (derivedId fb simplify loco e.1 i).isSome)
    (h3 : (cache.id.map Prod.fst ++ tkvIds fb simplify loco e).Nodup) :
    readTkv fb simplify loco cache e = .ok (goodTkv fb simplify loco cache e) := by
  have hkv : tkvKV e.1 = ((tkvKV e.1).1, (tkvKV e.1).2) := rfl
  have h3' : (({ cache with path := updateAssoc cache.path e.1 [] } : Cache).id.map Prod.fst ++
      e.2.map (fun i => (derivedId fb simplify loco e.1 i).getD "")).Nodup := by
    simpa [tkvIds, tkvPairs, Function.comp] using h3
  obtain ⟨seen', hfold⟩ := foldlM_readItem_ok fb simplify loco e.1 (tkvKV e.1).1 (tkvKV e.1).2
    hkv e.2 [] { cache with path := updateAssoc cache.path e.1 [] } h1 (by simp) h2 h3'
  have hdef : readTkv fb simplify loco cache e = Except.map (fun x => x.2)
      (e.2.foldlM (readItem fb simplify loco e.1 (tkvKV e.1).1 (tkvKV e.1).2)
        ([], { cache with path := updateAssoc cache.path e.1 [] })) := rfl
  rw [hdef, hfold]
  rfl

/-- Success of the processing of one file. -/
theorem readFile_ok (fb : Option String) (simplify : String → String)
    (loco : LocationSet → Option String) :
    ∀ (doc : List (String × List Item)) (cache : Cache),
      (∀ e ∈ doc, (e.2.map (·.displayName)).Nodup ∧
        ∀ i ∈ e.2, (derivedId fb simplify loco e.1 i).isSome) →
      (cache.id.map Prod.fst ++ docIds fb simplify loco doc).Nodup →
      readFile fb simplify loco cache doc = .ok (goodFile fb simplify loco cache doc)
  | [], cache, _, _ => rfl
  | e :: rest, cache, hOK, hnod => by
    have hids : docIds fb simplify loco (e :: rest) =
        tkvIds fb simplify loco e ++ docIds fb simplify loco rest := by
      simp [docIds, docPairs, tkvIds]
    rw [hids] at hnod
    have hstep := readTkv_ok fb simplify loco cache e (hOK e (List.mem_cons_self _ _)).1
      (hOK e (List.mem_cons_self _ _)).2
      ((hnod.sublist (by
        rw [← List.append_assoc]
        exact List.sublist_append_left _ _)))
    have hrest := readFile_ok fb simplify loco rest (goodTkv fb simplify loco cache e)
      (fun e' he' => hOK e' (List.mem_cons_of_mem _ he'))
      (by
        rw [goodTkv_id]
        simp only [List.map_append]
        rw [List.append_assoc]
        simpa [tkvIds, List.append_assoc] using hnod)
    show (readTkv fb simplify loco cache e >>= fun c => readFile fb simplify loco c rest) = _
    rw [hstep]
    simp only [Bind.bind, Except.bind]
    show readFile fb simplify loco (goodTkv fb simplify loco cache e) rest = _
    rw [hrest]
    rfl

/-- Success of a whole ingest run under the corpus conditions. -/
theorem readTree_ok_general (fb : Option String) (simplify : String → String)
    (loco : LocationSet → Option String) :
    ∀ (files : List (List (String × List Item))) (cache : Cache),
      corpusOK fb simplify loco files cache →
      files.foldlM (readFile fb simplify loco) cache =
        .ok (goodTree fb simplify loco files cache)
  | [], cache, _ => rfl
  | doc :: rest, cache, hOK => by
    obtain ⟨hdocs, hnod⟩ := hOK
    have hids : filesIds fb simplify loco (doc :: rest) =
        docIds fb simplify loco doc ++ filesIds fb simplify loco rest := by
      simp [filesIds, runPairs, docIds]
    rw [hids] at hnod
    have hstep := readFile_ok fb simplify loco doc cache
      (hdocs doc (List.mem_cons_self _ _))
      ((hnod.sublist (by
        rw [← List.append_assoc]
        exact List.sublist_append_left _ _)))
    have hrest := readTree_ok_general fb simplify loco rest (goodFile fb simplify loco cache doc)
      ⟨fun d hd => hdocs d (List.mem_cons_of_mem _ hd),
        by
          rw [goodFile_id]
          simp only [List.map_append]
          rw [List.append_assoc]
          simpa [docIds, List.append_assoc] using hnod⟩
    show (readFile fb simplify loco cache doc >>= fun c =>
      rest.foldlM (readFile fb simplify loco) c) = _
    rw [hstep]
    simp only [Bind.bind, Except.bind]
    rw [hrest]
    rfl

/-- `exports.read` succeeds and returns exactly the error-free fold under the
corpus conditions. -/
theorem readTree_ok (tree : String) (simplify : String → String)
    (loco : LocationSet → Option String)
    (files : List (List (String × List Item))) (cache : Cache)
    (hOK : corpusOK (fallbackName tree) simplify loco files cache) :
    readTree tree simplify loco files cache =
      .ok (goodTree (fallbackName tree) simplify loco files cache) :=
  readTree_ok_general (fallbackName tree) simplify loco files cache hOK

/-! ## Lemmas: invariants preserved by any successful ingest -/

theorem mem_fst_alookup_isSome {α : Type} {l : List (String × α)} {k : String}
    (h : k ∈ l.map Prod.fst) : ∃ v, alookup l k = some v := by
  induction l with
  | nil => simp at h
  | cons p rest ih =>
    obtain ⟨pk, pv⟩ := p
    by_cases hp : pk = k
    · exact ⟨pv, by simp [alookup, hp]⟩
    · simp only [alookup]
      rw [if_neg hp]
      exact ih (by
        simp only [List.map_cons, List.mem_cons] at h
        rcases h with h | h
        · exact absurd h.symm hp
        · exact h)

theorem alookup_none_not_mem {α : Type} {l : List (String × α)} {k : String}
    (h : alookup l k = none) : k ∉ l.map Prod.fst := by
  intro hmem
  obtain ⟨v, hv⟩ := mem_fst_alookup_isSome hmem
  rw [h] at hv
  cases hv

/-- No duplicate keys in `cache.id`. -/
def idKeysNodup (c : Cache) : Prop := (c.id.map Prod.fst).Nodup

theorem readItem_idKeysNodup {fb : Option String} {simplify : String → String}
    {loco : LocationSet → Option String} {tkv k v : String}
    {st st' : List String × Cache} {item : Item}
    (hP : idKeysNodup st.2)
    (h : readItem fb simplify loco tkv k v st item = .ok st') : idKeysNodup st'.2 := by
  obtain ⟨seen, cache⟩ := st
  obtain ⟨seen', cache'⟩ := st'
  obtain ⟨gen, hfresh, _, hcache⟩ := readItem_ok_inv h
  subst hcache
  simp only [idKeysNodup, List.map_append, List.map_cons, List.map_nil] at hP ⊢
  rw [List.nodup_append]
  exact ⟨hP, by simp, by
    intro a ha hmem
    simp only [List.mem_cons, List.not_mem_nil, or_false] at hmem
    subst hmem
    exact alookup_none_not_mem hfresh ha⟩

theorem readTkv_ok_inv {fb : Option String} {simplify : String → String}
    {loco : LocationSet → Option String} {cache c' : Cache} {e : String × List Item}
    (h : readTkv fb simplify loco cache e = .ok c') :
    ∃ seen', e.2.foldlM (readItem fb simplify loco e.1 (tkvKV e.1).1 (tkvKV e.1).2)
      ([], { cache with path := updateAssoc cache.path e.1 [] }) = .ok (seen', c') := by
  have hdef : readTkv fb simplify loco cache e = Except.map (fun x => x.2)
      (e.2.foldlM (readItem fb simplify loco e.1 (tkvKV e.1).1 (tkvKV e.1).2)
        ([], { cache with path := updateAssoc cache.path e.1 [] })) := rfl
  rw [hdef] at h
  cases hF : e.2.foldlM (readItem fb simplify loco e.1 (tkvKV e.1).1 (tkvKV e.1).2)
      ([], { cache with path := updateAssoc cache.path e.1 [] }) with
  | error er => rw [hF] at h; cases h
  | ok p =>
    rw [hF] at h
    obtain ⟨seen', c''⟩ := p
    cases h
    exact ⟨seen', rfl⟩

theorem readTkv_idKeysNodup {fb : Option String} {simplify : String → String}
    {loco : LocationSet → Option String} {cache c' : Cache} {e : String × List Item}
    (hP : idKeysNodup cache) (h : readTkv fb simplify loco cache e = .ok c') :
    idKeysNodup c' := by
  obtain ⟨seen', hfold⟩ := readTkv_ok_inv h
  exact foldlM_ok_inv (fun s b s' => readItem_idKeysNodup) e.2 _ (seen', c') hP hfold

theorem readFile_idKeysNodup {fb : Option String} {simplify : String → String}
    {loco : LocationSet → Option String} {cache c' : Cache} {doc : List (String × List Item)}
    (hP : idKeysNodup cache) (h : readFile fb simplify loco cache doc = .ok c') :
    idKeysNodup c' :=
  foldlM_ok_inv (fun s b s' hs hf => readTkv_idKeysNodup hs hf) doc cache c' hP h

/-- Any successful ingest run preserves distinctness of the `byId` keys. -/
theorem readTree_idKeysNodup {tree : String} {simplify : String → String}
    {loco : LocationSet → Option String} {files : List (List (String × List Item))}
    {cache c' : Cache}
    (hP : idKeysNodup cache) (h : readTree tree simplify loco files cache = .ok c') :
    idKeysNodup c' :=
  foldlM_ok_inv (fun s b s' hs hf => readFile_idKeysNodup hs hf) files cache c' hP h

/-- Every entry of every `byPath` bucket carries the tag stamped from its
category path. -/
def stampedCache (c : Cache) : Prop :=
  ∀ p ∈ c.path, ∀ i ∈ p.2, alookup i.tags (tkvKV p.1).1 = some (tkvKV p.1).2

theorem readItem_stamped {fb : Option String} {simplify : String → String}
    {loco : LocationSet → Option String} {tkv : String}
    {st st' : List String × Cache} {item : Item}
    (hP : stampedCache st.2)
    (h : readItem fb simplify loco tkv (tkvKV tkv).1 (tkvKV tkv).2 st item = .ok st') :
    stampedCache st'.2 := by
  obtain ⟨seen, cache⟩ := st
  obtain ⟨seen', cache'⟩ := st'
  obtain ⟨gen, _, _, hcache⟩ := readItem_ok_inv h
  subst hcache
  intro p hp i hi
  rcases mem_updateAssoc hp with hold | hnew
  · exact hP p hold i hi
  · subst hnew
    simp only at hi
    rcases List.mem_append.mp hi with hib | hii
    · cases halo : alookup cache.path tkv with
      | none => rw [halo] at hib; cases hib
      | some es =>
        rw [halo] at hib
        exact hP (tkv, es) (alookup_mem halo) i hib
    · simp only [List.mem_cons, List.not_mem_nil, or_false] at hii
      subst hii
      exact alookup_updateAssoc_self _ _ _

theorem readTkv_stamped {fb : Option String} {simplify : String → String}
    {loco : LocationSet → Option String} {cache c' : Cache} {e : String × List Item}
    (hP : stampedCache cache) (h : readTkv fb simplify loco cache e = .ok c') :
    stampedCache c' := by
  obtain ⟨seen', hfold⟩ := readTkv_ok_inv h
  have hreset : stampedCache ({ cache with path := updateAssoc cache.path e.1 [] } : Cache) := by
    intro p hp i hi
    rcases mem_updateAssoc hp with hold | hnew
    · exact hP p hold i hi
    · subst hnew
      cases hi
  exact foldlM_ok_inv (fun s b s' hs hf => readItem_stamped hs hf) e.2 _ (seen', c') hreset hfold

theorem readFile_stamped {fb : Option String} {simplify : String → String}
    {loco : LocationSet → Option String} {cache c' : Cache} {doc : List (String × List Item)}
    (hP : stampedCache cache) (h : readFile fb simplify loco cache doc = .ok c') :
    stampedCache c' :=
  foldlM_ok_inv (fun s b s' hs hf => readTkv_stamped hs hf) doc cache c' hP h

/-- Any successful ingest run leaves every bucket entry stamped with the tag
implied by its category path. -/
theorem readTree_stamped {tree : String} {simplify : String → String}
    {loco : LocationSet → Option String} {files : List (List (String × List Item))}
    {cache c' : Cache}
    (hP : stampedCache cache) (h : readTree tree simplify loco files cache = .ok c') :
    stampedCache c' :=
  foldlM_ok_inv (fun s b s' hs hf => readFile_stamped hs hf) files cache c' hP h

/-! ## Lemmas: bucket contents of the error-free run -/

theorem foldl_insertGood_path_self (fb : Option String) (simplify : String → String)
    (loco : LocationSet → Option String) (tkv : String) :
    ∀ (items : List Item) (cache : Cache) (acc : List Item),
      alookup cache.path tkv = some acc →
      alookup ((items.foldl (insertGood fb simplify loco tkv) cache).path) tkv =
        some (acc ++ items.map (stampItem fb simplify loco tkv))
  | [], cache, acc, h => by simpa using h
  | i :: rest, cache, acc, h => by
    rw [List.foldl_cons]
    have hstep : alookup ((insertGood fb simplify loco tkv cache i).path) tkv =
        some (acc ++ [stampItem fb simplify loco tkv i]) := by
      show alookup (updateAssoc cache.path tkv ((alookup cache.path tkv).getD [] ++
        [stampItem fb simplify loco tkv i])) tkv = _
      rw [alookup_updateAssoc_self, h]
      rfl
    rw [foldl_insertGood_path_self fb simplify loco tkv rest _ _ hstep]
    simp

theorem foldl_insertGood_path_other (fb : Option String) (simplify : String → String)
    (loco : LocationSet → Option String) (tkv t' : String) (hne : t' ≠ tkv) :
    ∀ (items : List Item) (cache : Cache),
      alookup ((items.foldl (insertGood fb simplify loco tkv) cache).path) t' =
        alookup cache.path t'
  | [], cache => rfl
  | i :: rest, cache => by
    rw [List.foldl_cons, foldl_insertGood_path_other fb simplify loco tkv t' hne rest]
    exact alookup_updateAssoc_ne _ _ _ _ hne

/-- The bucket a `goodTkv` call leaves for its own category path: exactly the
stamped entries of this occurrence, in order. -/
theorem goodTkv_path_self (fb : Option String) (simplify : String → String)
    (loco : LocationSet → Option String) (cache : Cache) (e : String × List Item) :
    alookup (goodTkv fb simplify loco cache e).path e.1 =
      some (e.2.map (stampItem fb simplify loco e.1)) := by
  unfold goodTkv
  rw [foldl_insertGood_path_self fb simplify loco e.1 e.2 _ []
    (by exact alookup_updateAssoc_self _ _ _)]
  simp

theorem goodTkv_path_other (fb : Option String) (simplify : String → String)
    (loco : LocationSet → Option String) (cache : Cache) (e : String × List Item)
    (t' : String) (hne : t' ≠ e.1) :
    alookup (goodTkv fb simplify loco cache e).path t' = alookup cache.path t' := by
  unfold goodTkv
  rw [foldl_insertGood_path_other fb simplify loco e.1 t' hne]
  exact alookup_updateAssoc_ne _ _ _ _ hne

/-! ## Lemmas: the write pipeline fold -/

theorem writeStep_id (cmp : String → String → Bool)
    (acc : Cache × List (String × List Item)) (tkv : String) :
    (writeStep cmp acc tkv).1.id = acc.1.id := by
  simp only [writeStep]
  split <;> rfl

theorem foldl_writeStep_id (cmp : String → String → Bool) :
    ∀ (paths : List String) (acc : Cache × List (String × List Item)),
      (paths.foldl (writeStep cmp) acc).1.id = acc.1.id
  | [], acc => rfl
  | p :: rest, acc => by
    rw [List.foldl_cons, foldl_writeStep_id cmp rest, writeStep_id]

theorem writeStep_path_other (cmp : String → String → Bool)
    (acc : Cache × List (String × List Item)) (tkv t' : String) (hne : t' ≠ tkv) :
    alookup (writeStep cmp acc tkv).1.path t' = alookup acc.1.path t' := by
  simp only [writeStep]
  split
  · rfl
  · exact alookup_updateAssoc_ne _ _ _ _ hne

theorem foldl_writeStep_path_notmem (cmp : String → String → Bool) :
    ∀ (paths : List String) (acc : Cache × List (String × List Item)) (t' : String),
      t' ∉ paths →
      alookup (paths.foldl (writeStep cmp) acc).1.path t' = alookup acc.1.path t'
  | [], acc, t', _ => rfl
  | p :: rest, acc, t', h => by
    rw [List.foldl_cons,
      foldl_writeStep_path_notmem cmp rest _ t' (fun hh => h (List.mem_cons_of_mem _ hh)),
      writeStep_path_other cmp acc p t' (fun hh => h (hh ▸ List.mem_cons_self _ _))]

theorem foldl_writeStep_outs_mono (cmp : String → String → Bool) :
    ∀ (paths : List String) (acc : Cache × List (String × List Item))
      (x : String × List Item), x ∈ acc.2 → x ∈ (paths.foldl (writeStep cmp) acc).2
  | [], acc, x, h => h
  | p :: rest, acc, x, h => by
    rw [List.foldl_cons]
    refine foldl_writeStep_outs_mono cmp rest _ x ?_
    simp only [writeStep]
    split
    · exact h
    · exact List.mem_append.mpr (Or.inl h)

/-- Every output the write fold emits is the display-name-sorted,
per-entry-canonicalized image of some item list. -/
theorem foldl_writeStep_outs_shape (cmp : String → String → Bool) :
    ∀ (paths : List String) (acc : Cache × List (String × List Item))
      (x : String × List Item), x ∈ (paths.foldl (writeStep cmp) acc).2 →
      x ∈ acc.2 ∨ ∃ items : List Item,
        x.2 = (isortBy (fun a b => cmp a.displayName b.displayName) items).map cleanItem
  | [], acc, x, h => Or.inl h
  | p :: rest, acc, x, h => by
    rw [List.foldl_cons] at h
    rcases foldl_writeStep_outs_shape cmp rest _ x h with h' | h'
    · simp only [writeStep] at h'
      split at h'
      · exact Or.inl h'
      · rcases List.mem_append.mp h' with h'' | h''
        · exact Or.inl h''
        · simp only [List.mem_cons, List.not_mem_nil, or_false] at h''
          subst h''
          exact Or.inr ⟨_, rfl⟩
    · exact Or.inr h'

/-- The write fold, on the category path `tkv` it processes: the cached
bucket is replaced by its sorted, in-place-normalized form, and the sorted,
fully canonicalized form is emitted as this path's file content. -/
theorem foldl_writeStep_processes (cmp : String → String → Bool) :
    ∀ (paths : List String) (acc : Cache × List (String × List Item))
      (tkv : String) (items : List Item),
      paths.Nodup → tkv ∈ paths →
      alookup acc.1.path tkv = some items → items ≠ [] →
      alookup (paths.foldl (writeStep cmp) acc).1.path tkv =
        some ((isortBy (fun a b => cmp a.displayName b.displayName) items).map normalizeEntry) ∧
      (tkv, (isortBy (fun a b => cmp a.displayName b.displayName) items).map cleanItem) ∈
        (paths.foldl (writeStep cmp) acc).2
  | [], _, _, _, _, hmem, _, _ => absurd hmem (List.not_mem_nil _)
  | p :: rest, acc, tkv, items, hnd, hmem, hlook, hne => by
    rw [List.foldl_cons]
    by_cases hp : tkv = p
    · subst hp
      have hempty : items.isEmpty = false := by
        cases items
        · exact absurd rfl hne
        · rfl
      have hstep1 : (writeStep cmp acc tkv).1.path = updateAssoc acc.1.path tkv
          ((isortBy (fun a b => cmp a.displayName b.displayName) items).map normalizeEntry) := by
        simp [writeStep, hlook, hempty]
      have hstep2 : (writeStep cmp acc tkv).2 = acc.2 ++
          [(tkv, (isortBy (fun a b => cmp a.displayName b.displayName) items).map cleanItem)] := by
        simp [writeStep, hlook, hempty]
      have hrest := (List.nodup_cons.mp hnd).1
      constructor
      · rw [foldl_writeStep_path_notmem cmp rest _ tkv hrest, hstep1]
        exact alookup_updateAssoc_self _ _ _
      · refine foldl_writeStep_outs_mono cmp rest _ _ ?_
        rw [hstep2]
        simp
    · have hmem' : tkv ∈ rest := by
        rcases List.mem_cons.mp hmem with h | h
        · exact absurd h hp
        · exact h
      exact foldl_writeStep_processes cmp rest (writeStep cmp acc p) tkv items
        (List.nodup_cons.mp hnd).2 hmem'
        (by rw [writeStep_path_other cmp acc p tkv hp]; exact hlook) hne

/-! ## Lemmas: sortedness -/

/-- Stable insertion sort fixes a list whose adjacent pairs are already in
order. -/
theorem isortBy_fix {α : Type} (le : α → α → Bool) :
    ∀ (l : List α), chainB le l = true → isortBy le l = l
  | [], _ => rfl
  | [_], _ => rfl
  | a :: b :: r, h => by
    have h' : (le a b && chainB le (b :: r)) = true := h
    simp only [Bool.and_eq_true] at h'
    obtain ⟨hab, hrest⟩ := h'
    show insertLeB le a (isortBy le (b :: r)) = a :: b :: r
    rw [isortBy_fix le (b :: r) hrest]
    simp [insertLeB, hab]

/-! ## Lemmas: error propagation through the ingest folds -/

theorem readTkv_err {fb : Option String} {simplify : String → String}
    {loco : LocationSet → Option String} {cache : Cache} {tkv : String}
    {items : List Item} {er : ReadError}
    (h : items.foldlM (readItem fb simplify loco tkv (tkvKV tkv).1 (tkvKV tkv).2)
      ([], { cache with path := updateAssoc cache.path tkv [] }) = .error er) :
    readTkv fb simplify loco cache (tkv, items) = .error er := by
  have hdef : readTkv fb simplify loco cache (tkv, items) = Except.map (fun x => x.2)
      (items.foldlM (readItem fb simplify loco tkv (tkvKV tkv).1 (tkvKV tkv).2)
        ([], { cache with path := updateAssoc cache.path tkv [] })) := rfl
  rw [hdef, h]
  rfl

theorem readFile_cons_err {fb : Option String} {simplify : String → String}
    {loco : LocationSet → Option String} {cache : Cache} {e : String × List Item}
    {rest : List (String × List Item)} {er : ReadError}
    (h : readTkv fb simplify loco cache e = .error er) :
    readFile fb simplify loco cache (e :: rest) = .error er := by
  show (readTkv fb simplify loco cache e >>= fun c => rest.foldlM (readTkv fb simplify loco) c) =
    .error er
  rw [h]
  rfl

theorem readTree_single_err {tree : String} {simplify : String → String}
    {loco : LocationSet → Option String} {cache : Cache}
    {doc : List (String × List Item)} {er : ReadError}
    (h : readFile (fallbackName tree) simplify loco cache doc = .error er) :
    readTree tree simplify loco [doc] cache = .error er := by
  show (readFile (fallbackName tree) simplify loco cache doc >>= fun c =>
    ([] : List (List (String × List Item))).foldlM (readFile (fallbackName tree) simplify loco) c) =
    .error er
  rw [h]
  rfl

/-! ## Claims -/

/-- Claim C4, counterexample: the write pipeline sorts the `include` tokens
first and lowercases afterwards (`include.sort().map(toLowerCase)`), so on
input `["a", "B"]` it emits `["b", "a"]`, which is not the sorted arrangement
`["a", "b"]` of the lowercased tokens (it is not sorted at all). -/
theorem c4_counterexample :
    (cleanLocationSet { «include» := some ["a", "B"], «exclude» := none, extra := [] }).include =
      some ["b", "a"] ∧
    isortBy strLeB (["a", "B"].map toLowerStr) = ["a", "b"] ∧
    some ["b", "a"] ≠ some (isortBy strLeB (["a", "B"].map toLowerStr)) ∧
    chainB strLeB ["b", "a"] = false := by
  exact ⟨by decide, by decide, by decide, by decide⟩

/-- Claim C4 (amended): for every entry written by the canonicalize/write
pipeline whose input `locationSet.include` is present, the output `include`
sequence consists of the input tokens sorted (default JavaScript string
order) and then lowercased — likewise `exclude` when present, omitted when
absent — and the output `locationSet` contains no field other than `include`
and `exclude`; the serialized entry's `locationSet` is exactly this cleaned
object. -/
theorem c4_clean_locationSet (ls : LocationSet) (xs : List String)
    (h : ls.include = some xs) :
    cleanLocationSet ls =
      { «include» := some ((isortBy strLeB xs).map toLowerStr),
        «exclude» := ls.exclude.map (fun ys => (isortBy strLeB ys).map toLowerStr),
        extra := [] } ∧
    ∀ item : Item, (cleanItem item).locationSet = cleanLocationSet item.locationSet := by
  constructor
  · obtain ⟨inc, exc, extra⟩ := ls
    simp only at h
    subst h
    cases exc <;> simp [cleanLocationSet]
  · intro item
    rfl

/-- Claim C4, witness. -/
theorem c4_witness :
    ({ «include» := some ["US", "ca"], «exclude» := some ["MX"], extra := [("note", "x")] } :
      LocationSet).include = some ["US", "ca"] ∧
    cleanLocationSet
        { «include» := some ["US", "ca"], «exclude» := some ["MX"], extra := [("note", "x")] } =
      { «include» := some ((isortBy strLeB ["US", "ca"]).map toLowerStr),
        «exclude» := some (["MX"].map toLowerStr), extra := [] } := by
  have h := c4_clean_locationSet
    { «include» := some ["US", "ca"], «exclude» := some ["MX"], extra := [("note", "x")] }
    ["US", "ca"] (by decide)
  exact ⟨by decide, by rw [h.1]; decide⟩

/-- Claim C6: the per-entry canonicalization of the write pipeline is
idempotent — on an entry that is already canonical (location tokens sorted
and lowercased with no extra `locationSet` fields, `matchNames`/`matchTags`
lowercased, tags sorted by key) it is the identity. -/
theorem c6_clean_idempotent (item : Item) (h : canonicalItem item = true) :
    cleanItem item = item := by
  obtain ⟨dn, tags, ls, mn, mt, iid⟩ := item
  obtain ⟨inc, exc, extra⟩ := ls
  cases inc with
  | none => simp [canonicalItem, canonicalLS] at h
  | some xs =>
    simp only [canonicalItem, canonicalLS, Bool.and_eq_true, beq_iff_eq] at h
    obtain ⟨⟨⟨⟨⟨⟨hxsort, hxlow⟩, hexc⟩, hextra⟩, hmn⟩, hmt⟩, htags⟩ := h
    have hxs : isortBy strLeB xs = xs := isortBy_fix strLeB xs hxsort
    have htags' : sortAssoc tags = tags := isortBy_fix tagLeB tags htags
    subst hextra
    cases exc with
    | none =>
      cases mn <;> cases mt <;>
        simp_all [cleanItem, normalizeEntry, sortItem, cleanLocationSet, sortAssoc, isortBy]
    | some ys =>
      simp only [Bool.and_eq_true, beq_iff_eq] at hexc
      obtain ⟨hysort, hylow⟩ := hexc
      have hys : isortBy strLeB ys = ys := isortBy_fix strLeB ys hysort
      cases mn <;> cases mt <;>
        simp_all [cleanItem, normalizeEntry, sortItem, cleanLocationSet, sortAssoc, isortBy]

/-- Claim C6, witness: a concrete already-canonical entry is fixed by the
per-entry canonicalization. -/
theorem c6_witness :
    canonicalItem { displayName := "Foo"
                    tags := [("brand", "Foo"), ("name", "Foo")]
                    locationSet := { «include» := some ["001"], «exclude» := none, extra := [] }
                    matchNames := some ["foo"]
                    matchTags := none
                    id := some "foo-123abc" } = true ∧
    cleanItem { displayName := "Foo"
                tags := [("brand", "Foo"), ("name", "Foo")]
                locationSet := { «include» := some ["001"], «exclude» := none, extra := [] }
                matchNames := some ["foo"]
                matchTags := none
                id := some "foo-123abc" } =
      { displayName := "Foo"
        tags := [("brand", "Foo"), ("name", "Foo")]
        locationSet := { «include» := some ["001"], «exclude» := none, extra := [] }
        matchNames := some ["foo"]
        matchTags := none
        id := some "foo-123abc" } :=
  ⟨by decide, c6_clean_idempotent _ (by decide)⟩

/-- Claim C8: an entry whose `locationSet` has no `include` field is
serialized with `include = ["001"]`; and every file content the write
pipeline emits consists of per-entry canonicalized (`cleanItem`) images, so
the default reaches every written entry. -/
theorem c8_default_world :
    (∀ item : Item, item.locationSet.include = none →
      (cleanItem item).locationSet.include = some ["001"]) ∧
    (∀ (cmp : String → String → Bool) (tree : String) (cache : Cache)
      (r : Cache × List (String × List Item)) (x : String × List Item),
      writeTree cmp tree cache = .ok r → x ∈ r.2 →
      ∃ items : List Item,
        x.2 = (isortBy (fun a b => cmp a.displayName b.displayName) items).map cleanItem) := by
  constructor
  · intro item h
    show (cleanLocationSet item.locationSet).include = some ["001"]
    simp [cleanLocationSet, h]
  · intro cmp tree cache r x hw hx
    simp only [writeTree] at hw
    split at hw
    · cases hw
    · cases Except.ok.inj hw
      rcases foldl_writeStep_outs_shape cmp _ (cache, []) x hx with h | h
      · exact absurd h (List.not_mem_nil x)
      · exact h

/-- Claim C8, witness. -/
theorem c8_witness :
    ({ displayName := "W"
       tags := [("name", "W")]
       locationSet := { «include» := none, «exclude» := none, extra := [] }
       matchNames := none
       matchTags := none
       id := none } : Item).locationSet.include = none ∧
    (cleanItem { displayName := "W"
                 tags := [("name", "W")]
                 locationSet := { «include» := none, «exclude» := none, extra := [] }
                 matchNames := none
                 matchTags := none
                 id := none }).locationSet.include = some ["001"] :=
  ⟨rfl, c8_default_world.1 _ rfl⟩

/-- Claim C10: on every selected category path with a nonempty bucket, the
write pipeline leaves in the cache the bucket reordered by display name with
every entry's `locationSet`, `matchNames`, `matchTags` and `tags` overwritten
by their normalized forms; `displayName` and `id` are unchanged on every
entry; buckets of other trees and the id index's keys are untouched; and the
emitted file content is the deep-sorted copy (`sortItem`) of each mutated
entry. -/
theorem c10_write_mutates_cache (cmp : String → String → Bool) (tree : String)
    (cache : Cache) (tkv : String) (items : List Item)
    (hnd : (cache.path.map Prod.fst).Nodup)
    (hlook : alookup cache.path tkv = some items)
    (htree : headSeg tkv = tree)
    (hne : items ≠ []) :
    ∃ c' outs, writeTree cmp tree cache = .ok (c', outs) ∧
      alookup c'.path tkv =
        some ((isortBy (fun a b => cmp a.displayName b.displayName) items).map normalizeEntry) ∧
      (tkv, (isortBy (fun a b => cmp a.displayName b.displayName) items).map cleanItem) ∈ outs ∧
      c'.id.map Prod.fst = cache.id.map Prod.fst ∧
      (∀ t', headSeg t' ≠ tree → alookup c'.path t' = alookup cache.path t') ∧
      (∀ e : Item, (normalizeEntry e).displayName = e.displayName ∧
        (normalizeEntry e).id = e.id ∧
        (normalizeEntry e).locationSet = cleanLocationSet e.locationSet ∧
        (normalizeEntry e).matchNames = e.matchNames.map (List.map toLowerStr) ∧
        (normalizeEntry e).matchTags = e.matchTags.map (List.map toLowerStr) ∧
        (normalizeEntry e).tags = sortAssoc e.tags) ∧
      (∀ e : Item, cleanItem e = sortItem (normalizeEntry e)) := by
  have hmemkeys : tkv ∈ cache.path.map Prod.fst :=
    List.mem_map_of_mem Prod.fst (alookup_mem hlook)
  have hmem : tkv ∈ (cache.path.map Prod.fst).filter (fun t => headSeg t = tree) :=
    List.mem_filter.mpr ⟨hmemkeys, by simp [htree]⟩
  have hnodup : ((cache.path.map Prod.fst).filter (fun t => headSeg t = tree)).Nodup :=
    hnd.filter _
  have hnotempty : ((cache.path.map Prod.fst).filter (fun t => headSeg t = tree)).isEmpty
      = false := by
    cases hp : (cache.path.map Prod.fst).filter (fun t => headSeg t = tree)
    · rw [hp] at hmem; cases hmem
    · rfl
  have hw : writeTree cmp tree cache =
      .ok (((cache.path.map Prod.fst).filter (fun t => headSeg t = tree)).foldl
        (writeStep cmp) (cache, [])) := by
    simp only [writeTree, hnotempty, Bool.false_eq_true, if_false]
  obtain ⟨h1, h2⟩ := foldl_writeStep_processes cmp
    ((cache.path.map Prod.fst).filter (fun t => headSeg t = tree)) (cache, []) tkv items
    hnodup hmem hlook hne
  refine ⟨_, _, hw, h1, h2, ?_, ?_, ?_, ?_⟩
  · exact congrArg (List.map Prod.fst) (foldl_writeStep_id cmp _ (cache, []))
  · intro t' ht'
    refine foldl_writeStep_path_notmem cmp _ (cache, []) t' ?_
    intro hmem'
    exact ht' (by simpa using (List.mem_filter.mp hmem').2)
  · exact fun e => ⟨rfl, rfl, rfl, rfl, rfl, rfl⟩
  · exact fun e => rfl

/-- Claim C10, witness. -/
theorem c10_witness :
    ∃ c' outs,
      writeTree strLeB "brands"
        { path := [("brands/shop/a", [mkItem "B" [("name", "B")] ["US"],
                                      mkItem "A" [("name", "A")] ["ca"]])],
          id := [("seed", mkItem "B" [("name", "B")] ["US"])] } = .ok (c', outs) ∧
      alookup c'.path "brands/shop/a" =
        some ((isortBy (fun a b => strLeB a.displayName b.displayName)
          [mkItem "B" [("name", "B")] ["US"], mkItem "A" [("name", "A")] ["ca"]]).map
            normalizeEntry) ∧
      ("brands/shop/a", (isortBy (fun a b => strLeB a.displayName b.displayName)
        [mkItem "B" [("name", "B")] ["US"], mkItem "A" [("name", "A")] ["ca"]]).map cleanItem) ∈
        outs ∧
      c'.id.map Prod.fst =
        ([("seed", mkItem "B" [("name", "B")] ["US"])].map Prod.fst) ∧
      (∀ t', headSeg t' ≠ "brands" →
        alookup c'.path t' =
          alookup [("brands/shop/a", [mkItem "B" [("name", "B")] ["US"],
                                      mkItem "A" [("name", "A")] ["ca"]])] t') ∧
      (∀ e : Item, (normalizeEntry e).displayName = e.displayName ∧
        (normalizeEntry e).id = e.id ∧
        (normalizeEntry e).locationSet = cleanLocationSet e.locationSet ∧
        (normalizeEntry e).matchNames = e.matchNames.map (List.map toLowerStr) ∧
        (normalizeEntry e).matchTags = e.matchTags.map (List.map toLowerStr) ∧
        (normalizeEntry e).tags = sortAssoc e.tags) ∧
      (∀ e : Item, cleanItem e = sortItem (normalizeEntry e)) :=
  c10_write_mutates_cache strLeB "brands"
    { path := [("brands/shop/a", [mkItem "B" [("name", "B")] ["US"],
                                  mkItem "A" [("name", "A")] ["ca"]])],
      id := [("seed", mkItem "B" [("name", "B")] ["US"])] }
    "brands/shop/a" [mkItem "B" [("name", "B")] ["US"], mkItem "A" [("name", "A")] ["ca"]]
    (by decide) (by decide) (by decide) (by decide)

/-- Claim C1, counterexample: an entry whose `tags.name` is present but empty
is ingested with an id derived from the fallback tag (`brand`), not from
`simplify(tags.name)`: JavaScript `||` treats the empty string as absent.
With `simplify` the identity and location resolved to `"001"`, the ingested
id is `"b-570046"` while the claim's formula gives `"" + "-" + hash6(…)`. -/
theorem c1_counterexample :
    alookup (mkItem "E" [("name", ""), ("brand", "b")] ["001"]).tags "name" = some "" ∧
    (readTree "brands" (fun s => s) (fun _ => some "001")
        [[("brands/shop/x", [mkItem "E" [("name", ""), ("brand", "b")] ["001"]])]]
        emptyCache).toOption.map (fun c => c.id.map Prod.fst) = some ["b-570046"] ∧
    "b-570046" ≠ "" ++ "-" ++ hash6 ("brands/shop/x" ++ " " ++ "001") :=
  ⟨by decide, by decide, by decide⟩

/-- Claim C1 (amended): for every ingested entry the derived id equals
`simplify(name) + "-" + hash6(md5(tkv + " " + locationID))`, where `name` is
resolved from the stamped tags as `tags.name` or — when `tags.name` is absent
or empty (JavaScript falsiness) — the tree-specific fallback tag; the id is a
function of the category path, the resolved location identifier and the
resolved name alone, hence identical across independent runs. -/
theorem c1_id_derivation (fb : Option String) (simplify : String → String)
    (loco : LocationSet → Option String) (tkv k v : String) (seen : List String)
    (cache : Cache) (item : Item) (locID name : String)
    (hkv : tkvKV tkv = (k, v))
    (hdn : item.displayName ∉ seen)
    (hloc : loco item.locationSet = some locID)
    (hname : nameOf (updateAssoc item.tags k v) fb = some name)
    (hfresh : alookup cache.id (simplify name ++ "-" ++ hash6 (tkv ++ " " ++ locID)) = none) :
    readItem fb simplify loco tkv k v (seen, cache) item =
      .ok (item.displayName :: seen,
        { path := updateAssoc cache.path tkv ((alookup cache.path tkv).getD [] ++
            [{ item with tags := updateAssoc item.tags k v,
                         id := some (simplify name ++ "-" ++ hash6 (tkv ++ " " ++ locID)) }]),
          id := cache.id ++ [(simplify name ++ "-" ++ hash6 (tkv ++ " " ++ locID),
            { item with tags := updateAssoc item.tags k v,
                        id := some (simplify name ++ "-" ++ hash6 (tkv ++ " " ++ locID)) })] }) ∧
    (∀ item₂ : Item, loco item₂.locationSet = some locID →
      nameOf (updateAssoc item₂.tags k v) fb = some name →
      derivedId fb simplify loco tkv item₂ =
        some (simplify name ++ "-" ++ hash6 (tkv ++ " " ++ locID))) :=
  ⟨readItem_ok_eq fb simplify loco tkv k v seen cache item locID name hdn hloc hname hfresh,
   fun item₂ hloc₂ hname₂ =>
     derivedId_eq_some fb simplify loco tkv k v item₂ locID name hkv hloc₂ hname₂⟩

/-- Claim C1, witness. -/
theorem c1_witness :
    derivedId (some "brand") (fun s => s) (fun _ => some "001") "brands/shop/x"
      (mkItem "E" [("name", "n")] ["001"]) =
      some ("n" ++ "-" ++ hash6 ("brands/shop/x" ++ " " ++ "001")) :=
  (c1_id_derivation (some "brand") (fun s => s) (fun _ => some "001") "brands/shop/x"
    "shop" "x" [] emptyCache (mkItem "E" [("name", "n")] ["001"]) "001" "n"
    (by decide) (by decide) (by decide) (by decide) (by decide)).2
    (mkItem "E" [("name", "n")] ["001"]) (by decide) (by decide)

/-- Claim C2, counterexample: a corpus of two entries under the same category
path whose derived (category path, resolved location, name) triples are
distinct — the resolved locations `q857` and `q4262` differ — still fails
with DuplicateIdError, because `hash6(md5(…))` truncates the digest to six
hex characters and `"brands/shop/x q857"` and `"brands/shop/x q4262"`
collide on that prefix.  Distinctness of the triples therefore does not
imply distinctness of the derived ids. -/
theorem c2_counterexample :
    locoHead (mkItem "A" [("name", "n")] ["q857"]).locationSet = some "q857" ∧
    locoHead (mkItem "B" [("name", "n")] ["q4262"]).locationSet = some "q4262" ∧
    ("q857" : String) ≠ "q4262" ∧
    hash6 ("brands/shop/x" ++ " " ++ "q857") = hash6 ("brands/shop/x" ++ " " ++ "q4262") ∧
    readTree "brands" (fun s => s) locoHead
      [[("brands/shop/x", [mkItem "A" [("name", "n")] ["q857"],
                           mkItem "B" [("name", "n")] ["q4262"]])]] emptyCache =
      .error (.duplicateId "n-2073f2") :=
  ⟨by decide, by decide, by decide, by decide, by decide⟩

/-- Claim C2 (amended): inserting an entry whose derived id already exists as
a key of `byId` fails with DuplicateIdError regardless of either entry's
category path; ingesting any corpus in which every derived id is distinct
(distinct triples are not enough, by the counterexample) succeeds; and any
successful run preserves distinctness of the `byId` keys, so each id key
maps to exactly one entry. -/
theorem c2_global_id_uniqueness :
    (∀ (fb : Option String) (simplify : String → String) (loco : LocationSet → Option String)
      (tkv k v : String) (seen : List String) (cache : Cache) (item existing : Item)
      (locID name : String),
      item.displayName ∉ seen →
      loco item.locationSet = some locID →
      nameOf (updateAssoc item.tags k v) fb = some name →
      alookup cache.id (simplify name ++ "-" ++ hash6 (tkv ++ " " ++ locID)) = some existing →
      readItem fb simplify loco tkv k v (seen, cache) item =
        .error (.duplicateId (simplify name ++ "-" ++ hash6 (tkv ++ " " ++ locID)))) ∧
    (∀ (tree : String) (simplify : String → String) (loco : LocationSet → Option String)
      (files : List (List (String × List Item))) (cache : Cache),
      corpusOK (fallbackName tree) simplify loco files cache →
      readTree tree simplify loco files cache =
        .ok (goodTree (fallbackName tree) simplify loco files cache)) ∧
    (∀ (tree : String) (simplify : String → String) (loco : LocationSet → Option String)
      (files : List (List (String × List Item))) (cache c' : Cache),
      readTree tree simplify loco files cache = .ok c' →
      idKeysNodup cache → idKeysNodup c') :=
  ⟨fun fb s l tkv k v seen cache item existing locID name hdn hloc hname hdup =>
      readItem_err_dupId fb s l tkv k v seen cache item locID name existing hdn hloc hname hdup,
   fun tree s l files cache h => readTree_ok tree s l files cache h,
   fun tree s l files cache c' h hk => readTree_idKeysNodup hk h⟩

/-- Claim C2, witness. -/
theorem c2_witness :
    readItem (some "brand") (fun s => s) (fun _ => some "001") "other/k/v" "k" "v"
      ([], { path := [], id := [("n" ++ "-" ++ hash6 ("other/k/v" ++ " " ++ "001"),
        mkItem "A" [("name", "n")] ["001"])] })
      (mkItem "B" [("name", "n")] ["001"]) =
      .error (.duplicateId ("n" ++ "-" ++ hash6 ("other/k/v" ++ " " ++ "001"))) ∧
    readTree "brands" (fun s => s) (fun _ => some "001")
      [[("brands/shop/a", [mkItem "A" [("name", "n1")] ["001"]])],
       [("brands/shop/b", [mkItem "B" [("name", "n2")] ["001"]])]] emptyCache =
      .ok (goodTree (some "brand") (fun s => s) (fun _ => some "001")
        [[("brands/shop/a", [mkItem "A" [("name", "n1")] ["001"]])],
         [("brands/shop/b", [mkItem "B" [("name", "n2")] ["001"]])]] emptyCache) ∧
    idKeysNodup (goodTree (some "brand") (fun s => s) (fun _ => some "001")
      [[("brands/shop/a", [mkItem "A" [("name", "n1")] ["001"]])],
       [("brands/shop/b", [mkItem "B" [("name", "n2")] ["001"]])]] emptyCache) := by
  refine ⟨c2_global_id_uniqueness.1 (some "brand") (fun s => s) (fun _ => some "001")
      "other/k/v" "k" "v" [] _ (mkItem "B" [("name", "n")] ["001"])
      (mkItem "A" [("name", "n")] ["001"]) "001" "n"
      (by decide) (by decide) (by decide) (by decide), ?_, ?_⟩
  · exact c2_global_id_uniqueness.2.1 "brands" (fun s => s) (fun _ => some "001") _
      emptyCache (by decide)
  · exact c2_global_id_uniqueness.2.2 "brands" (fun s => s) (fun _ => some "001") _
      emptyCache _
      (c2_global_id_uniqueness.2.1 "brands" (fun s => s) (fun _ => some "001") _
        emptyCache (by decide))
      (by exact List.nodup_nil)

/-- Claim C5: after any successful ingest run starting from a cache whose
buckets are stamped (in particular the empty cache), every entry of every
`byPath` bucket carries the key/value pair formed from the second and third
segments of its category path; the stamping overwrites any conflicting value,
since the stamped pair always wins the lookup. -/
theorem c5_tag_stamping :
    (∀ (tree : String) (simplify : String → String) (loco : LocationSet → Option String)
      (files : List (List (String × List Item))) (cache c' : Cache),
      stampedCache cache → readTree tree simplify loco files cache = .ok c' →
      stampedCache c') ∧
    (∀ (fb : Option String) (simplify : String → String) (loco : LocationSet → Option String)
      (tkv : String) (item : Item),
      alookup (stampItem fb simplify loco tkv item).tags (tkvKV tkv).1 =
        some (tkvKV tkv).2) :=
  ⟨fun tree s l files cache c' hP h => readTree_stamped hP h,
   fun fb s l tkv item => alookup_updateAssoc_self _ _ _⟩

/-- Claim C5, witness: a source entry carrying the conflicting tag
`shop=old` under category path `brands/shop/super` ends up stamped with
`shop=super`. -/
theorem c5_witness :
    stampedCache (goodTree (fallbackName "brands") (fun s => s) (fun _ => some "001")
      [[("brands/shop/super", [mkItem "A" [("shop", "old"), ("name", "n")] ["001"]])]]
      emptyCache) ∧
    alookup (stampItem (some "brand") (fun s => s) (fun _ => some "001") "brands/shop/super"
      (mkItem "A" [("shop", "old"), ("name", "n")] ["001"])).tags "shop" = some "super" :=
  ⟨c5_tag_stamping.1 "brands" (fun s => s) (fun _ => some "001")
      [[("brands/shop/super", [mkItem "A" [("shop", "old"), ("name", "n")] ["001"]])]]
      emptyCache _ (fun p hp => absurd hp (List.not_mem_nil p)) (by decide),
   c5_tag_stamping.2 (some "brand") (fun s => s) (fun _ => some "001") "brands/shop/super"
     (mkItem "A" [("shop", "old"), ("name", "n")] ["001"])⟩

/-- Claim C7, counterexample: under category path `brands/name/foo` the tag
stamping writes `name=foo` before name resolution, so an entry whose source
tags contain neither `name` nor `brand` still ingests successfully — the
claim predicts a MissingNameError. -/
theorem c7_counterexample :
    alookup (mkItem "D" [] ["001"]).tags "name" = none ∧
    alookup (mkItem "D" [] ["001"]).tags "brand" = none ∧
    (readTree "brands" (fun s => s) (fun _ => some "001")
        [[("brands/name/foo", [mkItem "D" [] ["001"]])]] emptyCache).toOption.isSome = true :=
  ⟨rfl, rfl, by decide⟩

/-- Claim C7 (amended): an entry whose tags contain neither `name` nor the
tree's fallback tag key fails ingest with MissingNameError — provided the
category path's key segment is itself neither `name` nor the fallback key,
since the tag stamping runs before name resolution and can supply the
missing name — and no cache is produced for the run. -/
theorem c7_missing_name_fatal (tree : String) (simplify : String → String)
    (loco : LocationSet → Option String) (tkv k v : String) (cache : Cache)
    (item : Item) (locID : String)
    (hkv : tkvKV tkv = (k, v))
    (hk1 : k ≠ "name") (hk2 : k ≠ fbKey (fallbackName tree))
    (h1 : alookup item.tags "name" = none)
    (h2 : alookup item.tags (fbKey (fallbackName tree)) = none)
    (hloc : loco item.locationSet = some locID) :
    readTree tree simplify loco [[(tkv, [item])]] cache =
      .error (.missingName item.displayName) ∧
    ∀ c' : Cache, readTree tree simplify loco [[(tkv, [item])]] cache ≠ .ok c' := by
  have hname : nameOf (updateAssoc item.tags k v) (fallbackName tree) = none := by
    unfold nameOf lookupTruthy
    rw [alookup_updateAssoc_ne _ _ _ _ (Ne.symm hk1), h1,
      alookup_updateAssoc_ne _ _ _ _ (Ne.symm hk2), h2]
  have hname' : nameOf (updateAssoc item.tags (tkvKV tkv).1 (tkvKV tkv).2)
      (fallbackName tree) = none := by rw [hkv]; exact hname
  have hitem := readItem_err_missingName (fallbackName tree) simplify loco tkv
    (tkvKV tkv).1 (tkvKV tkv).2 []
    { cache with path := updateAssoc cache.path tkv [] } item locID
    (List.not_mem_nil _) hloc hname'
  have hfold : [item].foldlM (readItem (fallbackName tree) simplify loco tkv
      (tkvKV tkv).1 (tkvKV tkv).2)
      ([], { cache with path := updateAssoc cache.path tkv [] }) =
      .error (.missingName item.displayName) := by
    rw [List.foldlM_cons, hitem]
    rfl
  have hmain : readTree tree simplify loco [[(tkv, [item])]] cache =
      .error (.missingName item.displayName) :=
    readTree_single_err (readFile_cons_err (readTkv_err hfold))
  exact ⟨hmain, fun c' hc => by rw [hmain] at hc; cases hc⟩

/-- Claim C7, witness. -/
theorem c7_witness :
    readTree "brands" (fun s => s) (fun _ => some "001")
      [[("brands/shop/x", [mkItem "D" [] ["001"]])]] emptyCache =
      .error (.missingName "D") ∧
    ∀ c' : Cache, readTree "brands" (fun s => s) (fun _ => some "001")
      [[("brands/shop/x", [mkItem "D" [] ["001"]])]] emptyCache ≠ .ok c' :=
  c7_missing_name_fatal "brands" (fun s => s) (fun _ => some "001") "brands/shop/x"
    "shop" "x" emptyCache (mkItem "D" [] ["001"]) "001"
    (by decide) (by decide) (by decide) (by decide) (by decide) (by decide)

/-- Claim C3: two entries with the same `displayName` under the same
category path fail ingest with DuplicateNameError (the transient per-path
`seenName` set catches the second one even though its other checks never
run), while two entries with the same `displayName` under different category
paths ingest successfully. -/
theorem c3_name_uniqueness_per_category :
    (∀ (tree : String) (simplify : String → String) (loco : LocationSet → Option String)
      (tkv : String) (cache : Cache) (i1 i2 : Item) (locID name : String),
      loco i1.locationSet = some locID →
      nameOf (updateAssoc i1.tags (tkvKV tkv).1 (tkvKV tkv).2) (fallbackName tree) =
        some name →
      alookup cache.id (simplify name ++ "-" ++ hash6 (tkv ++ " " ++ locID)) = none →
      i2.displayName = i1.displayName →
      readTree tree simplify loco [[(tkv, [i1, i2])]] cache =
        .error (.duplicateName i2.displayName)) ∧
    (∀ (tree : String) (simplify : String → String) (loco : LocationSet → Option String)
      (tkv1 tkv2 : String) (cache : Cache) (i1 i2 : Item),
      tkv1 ≠ tkv2 →
      i1.displayName = i2.displayName →
      corpusOK (fallbackName tree) simplify loco [[(tkv1, [i1]), (tkv2, [i2])]] cache →
      readTree tree simplify loco [[(tkv1, [i1]), (tkv2, [i2])]] cache =
        .ok (goodTree (fallbackName tree) simplify loco
          [[(tkv1, [i1]), (tkv2, [i2])]] cache)) := by
  constructor
  · intro tree s l tkv cache i1 i2 locID name hloc hname hfresh hd
    have hstep1 := readItem_ok_eq (fallbackName tree) s l tkv (tkvKV tkv).1 (tkvKV tkv).2 []
      { cache with path := updateAssoc cache.path tkv [] } i1 locID name
      (List.not_mem_nil _) hloc hname hfresh
    have hfold : [i1, i2].foldlM (readItem (fallbackName tree) s l tkv
        (tkvKV tkv).1 (tkvKV tkv).2)
        ([], { cache with path := updateAssoc cache.path tkv [] }) =
        .error (.duplicateName i2.displayName) := by
      rw [List.foldlM_cons, hstep1]
      simp only [Bind.bind, Except.bind]
      rw [List.foldlM_cons,
        readItem_err_dupName (fallbackName tree) s l tkv (tkvKV tkv).1 (tkvKV tkv).2
          [i1.displayName] _ i2 (by simp [hd])]
      rfl
    exact readTree_single_err (readFile_cons_err (readTkv_err hfold))
  · intro tree s l tkv1 tkv2 cache i1 i2 hne hd hOK
    exact readTree_ok tree s l _ cache hOK

/-- Claim C3, witness: same display name `A` twice under one path errors;
the same display name under two different paths ingests. -/
theorem c3_witness :
    readTree "brands" (fun s => s) (fun _ => some "001")
      [[("brands/shop/x", [mkItem "A" [("name", "n")] ["001"],
                           mkItem "A" [("name", "m")] ["001"]])]] emptyCache =
      .error (.duplicateName "A") ∧
    readTree "brands" (fun s => s) (fun _ => some "001")
      [[("brands/shop/a", [mkItem "A" [("name", "n1")] ["001"]]),
        ("brands/shop/b", [mkItem "A" [("name", "n2")] ["001"]])]] emptyCache =
      .ok (goodTree (fallbackName "brands") (fun s => s) (fun _ => some "001")
        [[("brands/shop/a", [mkItem "A" [("name", "n1")] ["001"]]),
          ("brands/shop/b", [mkItem "A" [("name", "n2")] ["001"]])]] emptyCache) :=
  ⟨c3_name_uniqueness_per_category.1 "brands" (fun s => s) (fun _ => some "001")
      "brands/shop/x" emptyCache (mkItem "A" [("name", "n")] ["001"])
      (mkItem "A" [("name", "m")] ["001"]) "001" "n"
      (by decide) (by decide) (by decide) (by decide),
   c3_name_uniqueness_per_category.2 "brands" (fun s => s) (fun _ => some "001")
     "brands/shop/a" "brands/shop/b" emptyCache (mkItem "A" [("name", "n1")] ["001"])
     (mkItem "A" [("name", "n2")] ["001"]) (by decide) (by decide) (by decide)⟩

/-- Claim C9: every occurrence of a category-path key resets its `byPath`
bucket and its seen-name set.  When the same category path occurs in two
input files of a successful run, the final bucket holds exactly the stamped
entries of the last file, the generated ids of the first file's entries are
still present in `byId`, no entry of the final bucket carries a first-file
id, and a display name shared between the two files does not trigger the
duplicate-name check. -/
theorem c9_last_file_wins (tree : String) (simplify : String → String)
    (loco : LocationSet → Option String) (tkv : String) (items1 items2 : List Item)
    (cache : Cache) (d : String)
    (hOK : corpusOK (fallbackName tree) simplify loco
      [[(tkv, items1)], [(tkv, items2)]] cache)
    (hd1 : d ∈ items1.map (·.displayName))
    (hd2 : d ∈ items2.map (·.displayName)) :
    readTree tree simplify loco [[(tkv, items1)], [(tkv, items2)]] cache =
      .ok (goodTree (fallbackName tree) simplify loco
        [[(tkv, items1)], [(tkv, items2)]] cache) ∧
    alookup (goodTree (fallbackName tree) simplify loco [[(tkv, items1)], [(tkv, items2)]]
        cache).path tkv =
      some (items2.map (stampItem (fallbackName tree) simplify loco tkv)) ∧
    (∀ gid ∈ tkvIds (fallbackName tree) simplify loco (tkv, items1),
      (alookup (goodTree (fallbackName tree) simplify loco
        [[(tkv, items1)], [(tkv, items2)]] cache).id gid).isSome = true) ∧
    (∀ gid ∈ tkvIds (fallbackName tree) simplify loco (tkv, items1),
      ∀ e ∈ items2.map (stampItem (fallbackName tree) simplify loco tkv),
        e.id ≠ some gid) := by
  refine ⟨readTree_ok tree simplify loco _ cache hOK, ?_, ?_, ?_⟩
  · show alookup (goodTkv (fallbackName tree) simplify loco
      (goodTkv (fallbackName tree) simplify loco cache (tkv, items1)) (tkv, items2)).path
        tkv = _
    exact goodTkv_path_self (fallbackName tree) simplify loco _ (tkv, items2)
  · intro gid hgid
    have hkeys := goodTree_id (fallbackName tree) simplify loco
      [[(tkv, items1)], [(tkv, items2)]] cache
    have hrun : runPairs (fallbackName tree) simplify loco
        [[(tkv, items1)], [(tkv, items2)]] =
        tkvPairs (fallbackName tree) simplify loco (tkv, items1) ++
        tkvPairs (fallbackName tree) simplify loco (tkv, items2) := by
      simp [runPairs, docPairs]
    have hmem : gid ∈ ((goodTree (fallbackName tree) simplify loco
        [[(tkv, items1)], [(tkv, items2)]] cache).id.map Prod.fst) := by
      rw [hkeys, hrun, List.map_append, List.map_append]
      exact List.mem_append.mpr (Or.inr (List.mem_append.mpr (Or.inl hgid)))
    obtain ⟨w, hw⟩ := mem_fst_alookup_isSome hmem
    rw [hw]
    rfl
  · intro gid hgid e he hc
    obtain ⟨i, hi, hie⟩ := List.mem_map.mp he
    have hiSome : (derivedId (fallbackName tree) simplify loco tkv i).isSome :=
      (hOK.1 [(tkv, items2)] (by simp) (tkv, items2) (by simp)).2 i hi
    have hid2 : (stampItem (fallbackName tree) simplify loco tkv i).id =
        some ((derivedId (fallbackName tree) simplify loco tkv i).getD "") := by
      cases hD : derivedId (fallbackName tree) simplify loco tkv i with
      | none => rw [hD] at hiSome; cases hiSome
      | some g => simp [stampItem, hD]
    rw [← hie, hid2] at hc
    have heq : (derivedId (fallbackName tree) simplify loco tkv i).getD "" = gid :=
      Option.some.inj hc
    have hgid2 : gid ∈ tkvIds (fallbackName tree) simplify loco (tkv, items2) := by
      rw [← heq]
      simp only [tkvIds, tkvPairs, List.map_map]
      exact List.mem_map.mpr ⟨i, hi, rfl⟩
    have hnod := hOK.2
    have hfiles : filesIds (fallbackName tree) simplify loco
        [[(tkv, items1)], [(tkv, items2)]] =
        tkvIds (fallbackName tree) simplify loco (tkv, items1) ++
        tkvIds (fallbackName tree) simplify loco (tkv, items2) := by
      simp [filesIds, runPairs, docPairs, tkvIds]
    rw [hfiles] at hnod
    have hnod2 := (List.nodup_append.mp hnod).2.1
    exact (List.nodup_append.mp hnod2).2.2 hgid hgid2

/-- Claim C9, witness: the path `brands/shop/x` occurs in two files with the
shared display name `A`. -/
theorem c9_witness :
    readTree "brands" (fun s => s) (fun _ => some "001")
      [[("brands/shop/x", [mkItem "A" [("name", "n1")] ["001"]])],
       [("brands/shop/x", [mkItem "A" [("name", "n2")] ["001"]])]] emptyCache =
      .ok (goodTree (fallbackName "brands") (fun s => s) (fun _ => some "001")
        [[("brands/shop/x", [mkItem "A" [("name", "n1")] ["001"]])],
         [("brands/shop/x", [mkItem "A" [("name", "n2")] ["001"]])]] emptyCache) ∧
    alookup (goodTree (fallbackName "brands") (fun s => s) (fun _ => some "001")
        [[("brands/shop/x", [mkItem "A" [("name", "n1")] ["001"]])],
         [("brands/shop/x", [mkItem "A" [("name", "n2")] ["001"]])]] emptyCache).path
        "brands/shop/x" =
      some ([mkItem "A" [("name", "n2")] ["001"]].map
        (stampItem (fallbackName "brands") (fun s => s) (fun _ => some "001")
          "brands/shop/x")) ∧
    (∀ gid ∈ tkvIds (fallbackName "brands") (fun s => s) (fun _ => some "001")
        ("brands/shop/x", [mkItem "A" [("name", "n1")] ["001"]]),
      (alookup (goodTree (fallbackName "brands") (fun s => s) (fun _ => some "001")
        [[("brands/shop/x", [mkItem "A" [("name", "n1")] ["001"]])],
         [("brands/shop/x", [mkItem "A" [("name", "n2")] ["001"]])]] emptyCache).id
        gid).isSome = true) ∧
    (∀ gid ∈ tkvIds (fallbackName "brands") (fun s => s) (fun _ => some "001")
        ("brands/shop/x", [mkItem "A" [("name", "n1")] ["001"]]),
      ∀ e ∈ [mkItem "A" [("name", "n2")] ["001"]].map
        (stampItem (fallbackName "brands") (fun s => s) (fun _ => some "001")
          "brands/shop/x"),
        e.id ≠ some gid) :=
  c9_last_file_wins "brands" (fun s => s) (fun _ => some "001") "brands/shop/x"
    [mkItem "A" [("name", "n1")] ["001"]] [mkItem "A" [("name", "n2")] ["001"]]
    emptyCache "A" (by decide) (by decide) (by decide)

end NSI


